import Mathlib

/-!
Verification of the classification and grouping engine of `senbetu.py`
(photo-culling assistant).  The Python program keeps, per image file, a
record of raw scores and derived judgments in the dict
`PhotoReviewApp.image_data`, keyed by file path, together with the ordered
list `PhotoReviewApp.files`.  We embed that state shallowly: file paths
become natural numbers, the dict becomes an association list, floats become
rationals, and each Python method that mutates the state becomes a Lean
function from state to state.
-/

set_option maxHeartbeats 1000000

namespace Senbetu

/-- One value of the `image_data` dict: the per-file record created in
`PhotoReviewApp.__init__` (lines 98-101) with keys `score`, `sim_prev`,
`to_delete`, `to_select`, `group_id`, `is_blur`. -/
structure ImageRecord where
  score : ℚ
  sim_prev : ℚ
  to_delete : Bool
  to_select : Bool
  group_id : ℤ
  is_blur : Bool
deriving DecidableEq, Repr

/-- The initial record for every file, from `PhotoReviewApp.__init__`:
`score 0.0, sim_prev 0.0, to_delete False, to_select False, group_id -1,
is_blur False`. -/
def initRecord : ImageRecord :=
  { score := 0, sim_prev := 0, to_delete := false, to_select := false,
    group_id := -1, is_blur := false }

/-- Lookup in the `image_data` dict.  A missing key would raise `KeyError`
in Python; we return `initRecord` there, and every theorem that uses `dget`
does so under a key-present hypothesis. -/
def dget : List (ℕ × ImageRecord) → ℕ → ImageRecord
  | [], _ => initRecord
  | (k1, v) :: rest, k => if k1 = k then v else dget rest k

/-- Write to the `image_data` dict: replace the first binding of the key,
or append a fresh binding (Python dict assignment). -/
def dset : List (ℕ × ImageRecord) → ℕ → ImageRecord → List (ℕ × ImageRecord)
  | [], k, v => [(k, v)]
  | (k1, v1) :: rest, k, v =>
    if k1 = k then (k, v) :: rest else (k1, v1) :: dset rest k v

/-- Deletion from the `image_data` dict (`del self.image_data[fpath]`). -/
def ddel (d : List (ℕ × ImageRecord)) (k : ℕ) : List (ℕ × ImageRecord) :=
  d.filter (fun p => p.1 ≠ k)

/-- Lookup in the `group_counts` dict with default `0`, i.e. Python
`self.group_counts.get(g, 0)`. -/
def cget (d : List (ℤ × ℕ)) (g : ℤ) : ℕ :=
  (d.lookup g).getD 0

/-- The dict comprehension `{i: ids.count(i) for i in set(ids)}` used to
rebuild `group_counts` (lines 262 and 290). -/
def tally (ids : List ℤ) : List (ℤ × ℕ) :=
  ids.dedup.map (fun g => (g, ids.count g))

/-- The mutable state of `PhotoReviewApp` that the classification engine
touches: the ordered file list, the `image_data` dict, the `group_counts`
dict, the two slider values (integers: blur 0-500, similarity 50-100) and
the current viewing index. -/
structure AppState where
  files : List ℕ
  image_data : List (ℕ × ImageRecord)
  group_counts : List (ℤ × ℕ)
  blur_slider : ℕ
  sim_slider : ℕ
  current_idx : ℕ
deriving DecidableEq, Repr

/-- `self.slider_sim.value() / 100.0` (lines 246 and 279), written with
`mkRat` so that concrete states evaluate inside the kernel;
`simThreshold_eq_div` below shows it is the plain division. -/
def simThreshold (s : AppState) : ℚ :=
  mkRat s.sim_slider 100

theorem simThreshold_eq_div (s : AppState) :
    simThreshold s = (s.sim_slider : ℚ) / 100 := by
  unfold simThreshold
  rw [Rat.mkRat_eq_div]
  norm_num

/-- The state right after `PhotoReviewApp.__init__` for a given file list:
every file mapped to `initRecord`, empty `group_counts`, default slider
values `150` and `85`, `current_idx = 0`. -/
def initState (files : List ℕ) : AppState :=
  { files := files
    image_data := files.map (fun f => (f, initRecord))
    group_counts := []
    blur_slider := 150
    sim_slider := 85
    current_idx := 0 }

/-- `PhotoReviewApp.apply_judgment_logic(fpath, update_group_id)`
(lines 270-290).  Sets `is_blur` from the strict comparison
`score < blur_th`; when `update_group_id` is true it additionally derives
`group_id` from the nominal predecessor's current `group_id` and rebuilds
`group_counts` from the ids that differ from the `-1` sentinel (skipping
the rebuild when that list is empty, mirroring `if ids:`). -/
def apply_judgment_logic (s : AppState) (fpath : ℕ) (update_group_id : Bool) :
    AppState :=
  let data0 := dget s.image_data fpath
  let data1 := { data0 with is_blur := decide (data0.score < (s.blur_slider : ℚ)) }
  let d1 := dset s.image_data fpath data1
  if update_group_id then
    let idx := s.files.indexOf fpath
    let data2 :=
      if 0 < idx then
        if simThreshold s ≤ data1.sim_prev then
          { data1 with group_id := (dget d1 (s.files.getD (idx - 1) 0)).group_id }
        else
          { data1 with group_id := (dget d1 (s.files.getD (idx - 1) 0)).group_id + 1 }
      else
        { data1 with group_id := 0 }
    let d2 := dset d1 fpath data2
    let ids := (d2.map (fun p => p.2.group_id)).filter (fun g => g ≠ -1)
    if ids.isEmpty then { s with image_data := d2 }
    else { s with image_data := d2, group_counts := tally ids }
  else
    { s with image_data := d1 }

/-- `PhotoReviewApp.handle_analysis_result(fpath, blur_score, sim_score, _)`
(lines 227-235, thumbnail and repaint omitted): store the raw scores, then
run the incremental classification pass. -/
def handle_analysis_result (s : AppState) (fpath : ℕ) (blur_score sim_score : ℚ) :
    AppState :=
  let r := dget s.image_data fpath
  let d := dset s.image_data fpath { r with score := blur_score, sim_prev := sim_score }
  apply_judgment_logic { s with image_data := d } fpath true

/-- The group-id loop of `refresh_judgments_instantly` (lines 251-258):
walk the files after the first, carrying `curr_group_id`; a file whose
stored `sim_prev` meets the threshold joins the running group, otherwise
the counter is incremented first. -/
def group_pass (simth : ℚ) : List ℕ → ℤ → List (ℕ × ImageRecord) →
    List (ℕ × ImageRecord)
  | [], _, d => d
  | f :: rest, curr, d =>
    let r := dget d f
    if simth ≤ r.sim_prev then
      group_pass simth rest curr (dset d f { r with group_id := curr })
    else
      group_pass simth rest (curr + 1) (dset d f { r with group_id := curr + 1 })

/-- `PhotoReviewApp.refresh_judgments_instantly` (lines 238-262, repaint
omitted): blur pass over every file, seed the first file with group id 0,
sequential group pass over the rest, then rebuild `group_counts` from all
ids (no sentinel filter here). -/
def refresh_judgments_instantly (s : AppState) : AppState :=
  let s1 := s.files.foldl (fun st f => apply_judgment_logic st f false) s
  let d0 :=
    match s1.files with
    | [] => s1.image_data
    | f :: _ => dset s1.image_data f { dget s1.image_data f with group_id := 0 }
  let d1 := group_pass (simThreshold s) (s1.files.drop 1) 0 d0
  let ids := d1.map (fun p => p.2.group_id)
  { s1 with image_data := d1, group_counts := tally ids }

/-- The `Key_D` branch of `keyPressEvent` (lines 437-443): toggle
`to_delete` on the current file and, when it became true, clear
`to_select`. -/
def toggle_delete (s : AppState) : AppState :=
  let fpath := s.files.getD s.current_idx 0
  let r0 := dget s.image_data fpath
  let r1 := { r0 with to_delete := !r0.to_delete }
  let r2 := if r1.to_delete then { r1 with to_select := false } else r1
  { s with image_data := dset s.image_data fpath r2 }

/-- The `Key_E` branch of `keyPressEvent` (lines 445-451): toggle
`to_select` on the current file and, when it became true, clear
`to_delete`. -/
def toggle_select (s : AppState) : AppState :=
  let fpath := s.files.getD s.current_idx 0
  let r0 := dget s.image_data fpath
  let r1 := { r0 with to_select := !r0.to_select }
  let r2 := if r1.to_select then { r1 with to_delete := false } else r1
  { s with image_data := dset s.image_data fpath r2 }

/-- Destination folder of a move during commit: `Deleted_Images` or
`Selected_Images`. -/
inductive MarkAction where
  | delete
  | select
deriving DecidableEq, Repr

/-- The result of `execute_actions`: the new state, the two counters shown
in the status label, and the list of moves performed.  A move `(f, a)`
stands for `shutil.move(f, join(dest(a), basename(f)))`: the file keeps its
own name, only the folder changes. -/
structure CommitResult where
  state : AppState
  count_del : ℕ
  count_sel : ℕ
  moves : List (ℕ × MarkAction)
deriving DecidableEq, Repr

/-- The `to_process` list built at the top of `execute_actions`
(lines 469-474): every file in order, paired with `delete` when
`to_delete` is set, else with `select` when `to_select` is set. -/
def to_process (s : AppState) : List (ℕ × MarkAction) :=
  s.files.filterMap (fun f =>
    let r := dget s.image_data f
    if r.to_delete then some (f, MarkAction.delete)
    else if r.to_select then some (f, MarkAction.select)
    else none)

/-- The try/except loop of `execute_actions` (lines 478-492).  `moveOk`
is the oracle for whether `shutil.move` succeeds on a path; on failure the
`except: pass` skips the whole body, leaving record, list entry and
counters untouched, and the loop continues. -/
def commit_loop (moveOk : ℕ → Bool) :
    List (ℕ × MarkAction) → AppState → ℕ → ℕ → List (ℕ × MarkAction) →
    AppState × ℕ × ℕ × List (ℕ × MarkAction)
  | [], s, cd, cs, mv => (s, cd, cs, mv)
  | (f, a) :: rest, s, cd, cs, mv =>
    if moveOk f then
      let cd1 := if a = MarkAction.delete then cd + 1 else cd
      let cs1 := if a = MarkAction.select then cs + 1 else cs
      let s1 := { s with files := s.files.erase f, image_data := ddel s.image_data f }
      commit_loop moveOk rest s1 cd1 cs1 (mv ++ [(f, a)])
    else
      commit_loop moveOk rest s cd cs mv

/-- `PhotoReviewApp.execute_actions` (lines 465-498, directory creation,
repaint and status label omitted): build `to_process`, return immediately
when it is empty, otherwise run the move loop and clamp `current_idx` to
`max 0 (len(files) - 1)` when it fell out of bounds. -/
def execute_actions (moveOk : ℕ → Bool) (s : AppState) : CommitResult :=
  let tp := to_process s
  if tp.isEmpty then ⟨s, 0, 0, []⟩
  else
    let out := commit_loop moveOk tp s 0 0 []
    let s1 := out.1
    let s2 :=
      if s1.files.length ≤ s1.current_idx then
        { s1 with current_idx := s1.files.length - 1 }
      else s1
    ⟨s2, out.2.1, out.2.2.1, out.2.2.2⟩

/-- The burst test used by `draw_hud_on_pixmap` (line 337) and
`get_grid_style` (line 402): `self.group_counts.get(gid, 0) > 1` for the
file's current group id. -/
def is_burst (s : AppState) (fpath : ℕ) : Bool :=
  decide (1 < cget s.group_counts (dget s.image_data fpath).group_id)

/-!  The analysis pipeline (`ImageAnalyzer.run`, lines 49-75).  Images are
abstract (`α`); `cv2.imread` failing is `none` in the input list;
`calculate_blur`, `calculate_similarity` and the 100-pixel-wide resize made
for the similarity sample are opaque parameters.  A result event
`(index, blur_score, sim_score)` stands for `result_ready.emit`; thumbnail
and progress events are omitted. -/

/-- The loop body of `ImageAnalyzer.run`: `i` is the running index,
`last` the resized similarity sample of the most recent successfully
loaded image (`last_img_sim`, initially `None`).  A file whose load fails
is skipped with no event; otherwise `sim_score` is `0.0` unless `i > 0`
and `last` is set, in which case it is `calculate_similarity` of the
current sample against `last`. -/
def runAux {α : Type} (blur : α → ℚ) (sim : α → α → ℚ) (resize : α → α) :
    List (Option α) → ℕ → Option α → List (ℕ × ℚ × ℚ)
  | [], _, _ => []
  | none :: rest, i, last => runAux blur sim resize rest (i + 1) last
  | some img :: rest, i, last =>
    let sample := resize img
    let sim_score :=
      if 0 < i then
        match last with
        | some p => sim sample p
        | none => 0
      else 0
    (i, blur img, sim_score) :: runAux blur sim resize rest (i + 1) (some sample)

/-- `ImageAnalyzer.run` started on a file list: index 0, no previous
sample. -/
def analyzerRun {α : Type} (blur : α → ℚ) (sim : α → α → ℚ) (resize : α → α)
    (files : List (Option α)) : List (ℕ × ℚ × ℚ) :=
  runAux blur sim resize files 0 none

/-- Modelled from the spec: the chain-relative similarity scores of §4.1,
over the successfully loaded images only — the first gets `0`, each later
one is compared against the sample of the previous successfully loaded
image. -/
def simChain {α : Type} (sim : α → α → ℚ) (resize : α → α) :
    List α → Option α → List ℚ
  | [], _ => []
  | a :: rest, none => 0 :: simChain sim resize rest (some (resize a))
  | a :: rest, some p => sim (resize a) p :: simChain sim resize rest (some (resize a))

/-!  A pure description of the group-id pass, used to state and prove the
properties of `refresh_judgments_instantly`. -/

/-- Group ids produced for the files after the first, given the running
counter `curr` and their stored `sim_prev` values in file order. -/
def groupIdsFrom (simth : ℚ) (curr : ℤ) : List ℚ → List ℤ
  | [] => []
  | sm :: rest =>
    if simth ≤ sm then curr :: groupIdsFrom simth curr rest
    else (curr + 1) :: groupIdsFrom simth (curr + 1) rest

/-- Group ids for the whole file list: the first file gets `0`, the rest
follow `groupIdsFrom` with counter `0`.  The head similarity value is not
consulted (the first file always starts group 0). -/
def classifyGroups (simth : ℚ) : List ℚ → List ℤ
  | [] => []
  | _ :: rest => 0 :: groupIdsFrom simth 0 rest

/-- Mutual exclusion of the two operator marks, over every record of the
`image_data` dict. -/
def MutexD (d : List (ℕ × ImageRecord)) : Prop :=
  ∀ p ∈ d, ¬(p.2.to_delete = true ∧ p.2.to_select = true)

/-- Mutual exclusion of the two operator marks for a whole state. -/
def MutexOK (s : AppState) : Prop :=
  MutexD s.image_data

instance (d : List (ℕ × ImageRecord)) : Decidable (MutexD d) :=
  List.decidableBAll _ d

instance (s : AppState) : Decidable (MutexOK s) :=
  inferInstanceAs (Decidable (MutexD s.image_data))

/-! ### Association-list lemmas -/

theorem dget_dset_self (d : List (ℕ × ImageRecord)) (k : ℕ) (v : ImageRecord) :
    dget (dset d k v) k = v := by
  induction d with
  | nil => simp [dget, dset]
  | cons p rest ih =>
    obtain ⟨k1, v1⟩ := p
    by_cases h : k1 = k <;> simp [dget, dset, h, ih]

theorem dget_dset_ne (d : List (ℕ × ImageRecord)) {k k2 : ℕ} (v : ImageRecord)
    (h : k ≠ k2) : dget (dset d k v) k2 = dget d k2 := by
  induction d with
  | nil => simp [dget, dset, h]
  | cons p rest ih =>
    obtain ⟨k1, v1⟩ := p
    by_cases h1 : k1 = k
    · subst h1
      simp [dget, dset, h]
    · simp only [dset, if_neg h1, dget]
      by_cases h2 : k1 = k2 <;> simp [h2, ih]

theorem keys_dset (d : List (ℕ × ImageRecord)) {k : ℕ} (v : ImageRecord)
    (h : k ∈ d.map Prod.fst) :
    (dset d k v).map Prod.fst = d.map Prod.fst := by
  induction d with
  | nil => simp at h
  | cons p rest ih =>
    obtain ⟨k1, v1⟩ := p
    by_cases h1 : k1 = k
    · simp [dset, h1]
    · simp only [List.map_cons] at h
      rcases List.mem_cons.mp h with h2 | h2
      · exact absurd h2.symm h1
      · simp [dset, h1, ih h2]

theorem mem_dset {d : List (ℕ × ImageRecord)} {k : ℕ} {v : ImageRecord}
    {p : ℕ × ImageRecord} (h : p ∈ dset d k v) : p ∈ d ∨ p = (k, v) := by
  induction d with
  | nil => simpa [dset] using h
  | cons q rest ih =>
    obtain ⟨k1, v1⟩ := q
    by_cases h1 : k1 = k
    · simp only [dset, if_pos h1] at h
      rcases List.mem_cons.mp h with h2 | h2
      · right; exact h2
      · left; exact List.mem_cons_of_mem _ h2
    · simp only [dset, if_neg h1] at h
      rcases List.mem_cons.mp h with h2 | h2
      · left; exact h2 ▸ List.mem_cons_self _ _
      · rcases ih h2 with h3 | h3
        · left; exact List.mem_cons_of_mem _ h3
        · right; exact h3

theorem dget_filter {d : List (ℕ × ImageRecord)} {q : ℕ → Bool} {k : ℕ}
    (h : q k = true) :
    dget (d.filter (fun p => q p.1)) k = dget d k := by
  induction d with
  | nil => simp
  | cons p rest ih =>
    obtain ⟨k1, v1⟩ := p
    by_cases h1 : k1 = k
    · subst h1
      simp [List.filter_cons, h, dget]
    · by_cases h2 : q k1 <;> simp [List.filter_cons, h2, dget, h1, ih]

/-- A dict whose key list is duplicate-free is recovered from its keys and
`dget`. -/
theorem eq_keys_map_dget {d : List (ℕ × ImageRecord)}
    (h : (d.map Prod.fst).Nodup) :
    d = (d.map Prod.fst).map (fun k => (k, dget d k)) := by
  induction d with
  | nil => simp
  | cons p rest ih =>
    obtain ⟨k1, v1⟩ := p
    simp only [List.map_cons, List.nodup_cons] at h
    obtain ⟨hk, hrest⟩ := h
    have step : (rest.map Prod.fst).map (fun k => (k, dget rest k))
        = (rest.map Prod.fst).map (fun k => (k, dget ((k1, v1) :: rest) k)) := by
      apply List.map_congr_left
      intro k2 hk2
      have hne : k1 ≠ k2 := fun e => hk (e ▸ hk2)
      simp [dget, hne]
    show (k1, v1) :: rest
        = (k1, dget ((k1, v1) :: rest) k1)
            :: (rest.map Prod.fst).map (fun k => (k, dget ((k1, v1) :: rest) k))
    rw [← step, ← ih hrest]
    simp [dget]

/-! ### Tally lemmas -/

theorem lookup_map_pair (l : List ℤ) (f : ℤ → ℕ) (x : ℤ) :
    (l.map (fun g => (g, f g))).lookup x = if x ∈ l then some (f x) else none := by
  induction l with
  | nil => simp [List.lookup]
  | cons a rest ih =>
    by_cases h : x = a
    · simp [List.lookup, h]
    · have : (x == a) = false := by simpa using h
      simp [List.lookup, this, ih, h]

/-- The rebuilt `group_counts` dict answers every query (with default 0)
by the exact multiplicity of the id among the tallied list. -/
theorem cget_tally (ids : List ℤ) (g : ℤ) : cget (tally ids) g = ids.count g := by
  unfold cget tally
  rw [lookup_map_pair]
  by_cases h : g ∈ ids
  · simp [List.mem_dedup.mpr h]
  · have h2 : g ∉ ids.dedup := fun hc => h (List.mem_dedup.mp hc)
    simp [h2, List.count_eq_zero.mpr h]

/-! ### Mutual-exclusion helpers -/

theorem mutexD_dget {d : List (ℕ × ImageRecord)} (h : MutexD d) (k : ℕ) :
    ¬((dget d k).to_delete = true ∧ (dget d k).to_select = true) := by
  induction d with
  | nil => simp [dget, initRecord]
  | cons p rest ih =>
    obtain ⟨k1, v1⟩ := p
    by_cases h1 : k1 = k
    · simpa [dget, h1] using h (k1, v1) (List.mem_cons_self _ _)
    · simpa [dget, h1] using ih (fun q hq => h q (List.mem_cons_of_mem _ hq))

theorem mutexD_dset {d : List (ℕ × ImageRecord)} (h : MutexD d) {k : ℕ}
    {v : ImageRecord} (hv : ¬(v.to_delete = true ∧ v.to_select = true)) :
    MutexD (dset d k v) := by
  intro p hp
  rcases mem_dset hp with h2 | h2
  · exact h p h2
  · rw [h2]
    exact hv

theorem mutexD_filter {d : List (ℕ × ImageRecord)} (h : MutexD d)
    (q : ℕ × ImageRecord → Bool) : MutexD (d.filter q) :=
  fun p hp => h p (List.mem_of_mem_filter hp)

/-! ### Pure classifier lemmas -/

theorem groupIdsFrom_length (simth : ℚ) (curr : ℤ) (l : List ℚ) :
    (groupIdsFrom simth curr l).length = l.length := by
  induction l generalizing curr with
  | nil => rfl
  | cons x rest ih =>
    by_cases h : simth ≤ x <;> simp [groupIdsFrom, h, ih]

theorem groupIdsFrom_getD_zero (simth : ℚ) (curr : ℤ) (x : ℚ) (rest : List ℚ) :
    (groupIdsFrom simth curr (x :: rest)).getD 0 0
      = if simth ≤ x then curr else curr + 1 := by
  by_cases h : simth ≤ x <;> simp [groupIdsFrom, h]

theorem groupIdsFrom_adjacent (simth : ℚ) :
    ∀ (l : List ℚ) (curr : ℤ) (j : ℕ), j + 1 < l.length →
      (groupIdsFrom simth curr l).getD (j + 1) 0
        = if simth ≤ l.getD (j + 1) 0 then (groupIdsFrom simth curr l).getD j 0
          else (groupIdsFrom simth curr l).getD j 0 + 1 := by
  intro l
  induction l with
  | nil => intro curr j hj; simp at hj
  | cons x rest ih =>
    intro curr j hj
    match j, hj with
    | 0, hj =>
      have hr : rest ≠ [] := by
        intro e
        simp [e] at hj
      obtain ⟨y, rest2, rfl⟩ := List.exists_cons_of_ne_nil hr
      by_cases h : simth ≤ x <;> by_cases h2 : simth ≤ y <;>
        simp [groupIdsFrom, h, h2]
    | j2 + 1, hj =>
      have hj2 : j2 + 1 < rest.length := by simpa using hj
      by_cases h : simth ≤ x <;>
        simpa [groupIdsFrom, h] using ih _ j2 hj2

theorem classifyGroups_length (simth : ℚ) (l : List ℚ) :
    (classifyGroups simth l).length = l.length := by
  cases l with
  | nil => rfl
  | cons x rest => simp [classifyGroups, groupIdsFrom_length]

theorem classifyGroups_getD_zero (simth : ℚ) (x : ℚ) (rest : List ℚ) :
    (classifyGroups simth (x :: rest)).getD 0 0 = 0 := rfl

theorem classifyGroups_adjacent (simth : ℚ) (l : List ℚ) (j : ℕ)
    (hj : j + 1 < l.length) :
    (classifyGroups simth l).getD (j + 1) 0
      = if simth ≤ l.getD (j + 1) 0 then (classifyGroups simth l).getD j 0
        else (classifyGroups simth l).getD j 0 + 1 := by
  match l, hj with
  | x :: rest, hj =>
    match j with
    | 0 =>
      have hr : rest ≠ [] := by
        intro e
        simp [e] at hj
      obtain ⟨y, rest2, rfl⟩ := List.exists_cons_of_ne_nil hr
      by_cases h2 : simth ≤ y <;> simp [classifyGroups, groupIdsFrom, h2]
    | j2 + 1 =>
      have hj2 : j2 + 1 < rest.length := by simpa using hj
      simpa [classifyGroups] using groupIdsFrom_adjacent simth rest 0 j2 hj2

/-! ### The blur pass of `refresh_judgments_instantly` -/

/-- The record update performed by `apply_judgment_logic` when
`update_group_id` is false: only `is_blur` changes. -/
def blurRecord (bth : ℕ) (r : ImageRecord) : ImageRecord :=
  { r with is_blur := decide (r.score < (bth : ℚ)) }

/-- The dict-level effect of the loop
`for fpath in self.files: self.apply_judgment_logic(fpath, update_group_id=False)`. -/
def blurPassD (bth : ℕ) (todo : List ℕ) (d : List (ℕ × ImageRecord)) :
    List (ℕ × ImageRecord) :=
  todo.foldl (fun d2 f => dset d2 f (blurRecord bth (dget d2 f))) d

theorem apply_false_eq (s : AppState) (f : ℕ) :
    apply_judgment_logic s f false
      = { s with
          image_data :=
            dset s.image_data f (blurRecord s.blur_slider (dget s.image_data f)) } :=
  rfl

theorem blurFold_eq (todo : List ℕ) (s : AppState) :
    todo.foldl (fun st f => apply_judgment_logic st f false) s
      = { s with image_data := blurPassD s.blur_slider todo s.image_data } := by
  induction todo generalizing s with
  | nil => rfl
  | cons a rest ih =>
    rw [List.foldl_cons, apply_false_eq, ih]
    rfl

theorem list_getD_mem {α : Type} (l : List α) (j : ℕ) (d : α) (h : j < l.length) :
    l.getD j d ∈ l := by
  induction l generalizing j with
  | nil => simp at h
  | cons a rest ih =>
    cases j with
    | zero => simp
    | succ j2 =>
      have : j2 < rest.length := by simpa using h
      simpa using Or.inr (ih j2 this)

theorem blurPassD_dget (bth : ℕ) (todo : List ℕ) (hnd : todo.Nodup)
    (d : List (ℕ × ImageRecord)) (f : ℕ) :
    dget (blurPassD bth todo d) f
      = if f ∈ todo then blurRecord bth (dget d f) else dget d f := by
  induction todo generalizing d with
  | nil => simp [blurPassD]
  | cons a rest ih =>
    obtain ⟨ha, hrest⟩ := List.nodup_cons.mp hnd
    have step : blurPassD bth (a :: rest) d
        = blurPassD bth rest (dset d a (blurRecord bth (dget d a))) := rfl
    rw [step, ih hrest]
    by_cases h1 : f = a
    · subst h1
      simp [ha, dget_dset_self]
    · by_cases h2 : f ∈ rest <;>
        simp [h1, h2, dget_dset_ne d _ (fun e => h1 e.symm)]

theorem blurPassD_keys (bth : ℕ) (todo : List ℕ) (d : List (ℕ × ImageRecord))
    (hsub : ∀ f ∈ todo, f ∈ d.map Prod.fst) :
    (blurPassD bth todo d).map Prod.fst = d.map Prod.fst := by
  induction todo generalizing d with
  | nil => rfl
  | cons a rest ih =>
    have step : blurPassD bth (a :: rest) d
        = blurPassD bth rest (dset d a (blurRecord bth (dget d a))) := rfl
    have hk := keys_dset d (blurRecord bth (dget d a)) (hsub a (List.mem_cons_self _ _))
    rw [step, ih _ (fun f hf => by rw [hk]; exact hsub f (List.mem_cons_of_mem _ hf)), hk]

/-! ### The group pass of `refresh_judgments_instantly` -/

theorem group_pass_keys (simth : ℚ) (todo : List ℕ) (curr : ℤ)
    (d : List (ℕ × ImageRecord)) (hsub : ∀ f ∈ todo, f ∈ d.map Prod.fst) :
    (group_pass simth todo curr d).map Prod.fst = d.map Prod.fst := by
  induction todo generalizing curr d with
  | nil => rfl
  | cons a rest ih =>
    have hmem := hsub a (List.mem_cons_self _ _)
    by_cases h : simth ≤ (dget d a).sim_prev
    · rw [group_pass, if_pos h,
        ih _ _ (fun f hf => by
          rw [keys_dset d _ hmem]; exact hsub f (List.mem_cons_of_mem _ hf)),
        keys_dset d _ hmem]
    · rw [group_pass, if_neg h,
        ih _ _ (fun f hf => by
          rw [keys_dset d _ hmem]; exact hsub f (List.mem_cons_of_mem _ hf)),
        keys_dset d _ hmem]

theorem group_pass_dget_notmem (simth : ℚ) (todo : List ℕ) (curr : ℤ)
    (d : List (ℕ × ImageRecord)) (f : ℕ) (hf : f ∉ todo) :
    dget (group_pass simth todo curr d) f = dget d f := by
  induction todo generalizing curr d with
  | nil => rfl
  | cons a rest ih =>
    have hne : a ≠ f := fun e => hf (e ▸ List.mem_cons_self _ _)
    have hrest : f ∉ rest := fun h2 => hf (List.mem_cons_of_mem _ h2)
    by_cases h : simth ≤ (dget d a).sim_prev
    · rw [group_pass, if_pos h, ih _ _ hrest, dget_dset_ne _ _ hne]
    · rw [group_pass, if_neg h, ih _ _ hrest, dget_dset_ne _ _ hne]

theorem group_pass_dget_getD (simth : ℚ) (todo : List ℕ) (hnd : todo.Nodup) :
    ∀ (curr : ℤ) (d : List (ℕ × ImageRecord)) (j : ℕ), j < todo.length →
      dget (group_pass simth todo curr d) (todo.getD j 0)
        = { dget d (todo.getD j 0) with
            group_id := (groupIdsFrom simth curr
                (todo.map (fun f => (dget d f).sim_prev))).getD j 0 } := by
  induction todo with
  | nil => intro curr d j hj; simp at hj
  | cons a rest ih =>
    intro curr d j hj
    obtain ⟨ha, hrest⟩ := List.nodup_cons.mp hnd
    by_cases h : simth ≤ (dget d a).sim_prev
    · rw [group_pass, if_pos h]
      cases j with
      | zero =>
        rw [List.getD_cons_zero,
          group_pass_dget_notmem _ _ _ _ _ ha, dget_dset_self]
        simp [groupIdsFrom, h]
      | succ j2 =>
        have hj2 : j2 < rest.length := by simpa using hj
        have hx : rest.getD j2 0 ∈ rest := list_getD_mem rest j2 0 hj2
        have hxa : a ≠ rest.getD j2 0 := fun e => ha (by rw [e]; exact hx)
        have hsims : rest.map (fun f =>
              (dget (dset d a { dget d a with group_id := curr }) f).sim_prev)
            = rest.map (fun f => (dget d f).sim_prev) := by
          apply List.map_congr_left
          intro f hf
          rw [dget_dset_ne _ _ (fun e => ha (by rw [e]; exact hf))]
        rw [List.getD_cons_succ, ih hrest curr _ j2 hj2, hsims,
          dget_dset_ne _ _ hxa]
        simp [groupIdsFrom, h]
    · rw [group_pass, if_neg h]
      cases j with
      | zero =>
        rw [List.getD_cons_zero,
          group_pass_dget_notmem _ _ _ _ _ ha, dget_dset_self]
        simp [groupIdsFrom, h]
      | succ j2 =>
        have hj2 : j2 < rest.length := by simpa using hj
        have hx : rest.getD j2 0 ∈ rest := list_getD_mem rest j2 0 hj2
        have hxa : a ≠ rest.getD j2 0 := fun e => ha (by rw [e]; exact hx)
        have hsims : rest.map (fun f =>
              (dget (dset d a { dget d a with group_id := curr + 1 }) f).sim_prev)
            = rest.map (fun f => (dget d f).sim_prev) := by
          apply List.map_congr_left
          intro f hf
          rw [dget_dset_ne _ _ (fun e => ha (by rw [e]; exact hf))]
        rw [List.getD_cons_succ, ih hrest (curr + 1) _ j2 hj2, hsims,
          dget_dset_ne _ _ hxa]
        simp [groupIdsFrom, h]

/-! ### Characterization of `refresh_judgments_instantly` -/

/-- The `image_data` dict produced by `refresh_judgments_instantly`,
written with the dict-level passes. -/
def refreshD (s : AppState) : List (ℕ × ImageRecord) :=
  let B := blurPassD s.blur_slider s.files s.image_data
  let d0 :=
    match s.files with
    | [] => B
    | f :: _ => dset B f { dget B f with group_id := 0 }
  group_pass (simThreshold s) (s.files.drop 1) 0 d0

theorem refresh_eq (s : AppState) :
    refresh_judgments_instantly s
      = { s with
          image_data := refreshD s,
          group_counts := tally ((refreshD s).map (fun p => p.2.group_id)) } := by
  unfold refresh_judgments_instantly refreshD
  rw [blurFold_eq]

theorem refreshD_keys (s : AppState) (hkeys : s.image_data.map Prod.fst = s.files)
    (hnd : s.files.Nodup) :
    (refreshD s).map Prod.fst = s.files := by
  rcases hfs : s.files with _ | ⟨f0, rest⟩
  · unfold refreshD
    rw [hfs] at hkeys ⊢
    simpa [blurPassD, group_pass] using hkeys
  · unfold refreshD
    rw [hfs] at hkeys ⊢
    have hsub : ∀ f ∈ f0 :: rest, f ∈ s.image_data.map Prod.fst := by
      intro f hf
      rw [hkeys]
      exact hf
    have hB : (blurPassD s.blur_slider (f0 :: rest) s.image_data).map Prod.fst
        = f0 :: rest := by
      rw [blurPassD_keys _ _ _ hsub, hkeys]
    have hf0 : f0 ∈ (blurPassD s.blur_slider (f0 :: rest) s.image_data).map Prod.fst := by
      rw [hB]
      exact List.mem_cons_self _ _
    have hd0 : (dset (blurPassD s.blur_slider (f0 :: rest) s.image_data) f0
          { dget (blurPassD s.blur_slider (f0 :: rest) s.image_data) f0 with
            group_id := 0 }).map Prod.fst = f0 :: rest := by
      rw [keys_dset _ _ hf0, hB]
    simp only [List.drop_succ_cons, List.drop_zero]
    rw [group_pass_keys _ _ _ _ (fun f hf => by
      rw [hd0]
      exact List.mem_cons_of_mem _ hf)]
    exact hd0

theorem refreshD_dget (s : AppState) (hkeys : s.image_data.map Prod.fst = s.files)
    (hnd : s.files.Nodup) (j : ℕ) (hj : j < s.files.length) :
    dget (refreshD s) (s.files.getD j 0)
      = { dget s.image_data (s.files.getD j 0) with
          is_blur := decide
            ((dget s.image_data (s.files.getD j 0)).score < (s.blur_slider : ℚ)),
          group_id := (classifyGroups (simThreshold s)
              (s.files.map (fun f => (dget s.image_data f).sim_prev))).getD j 0 } := by
  rcases hfs : s.files with _ | ⟨f0, rest⟩
  · rw [hfs] at hj
    simp at hj
  · unfold refreshD
    rw [hfs] at hnd hkeys hj ⊢
    obtain ⟨hf0r, hrestnd⟩ := List.nodup_cons.mp hnd
    simp only [List.drop_succ_cons, List.drop_zero]
    have hBd : ∀ f ∈ f0 :: rest,
        dget (blurPassD s.blur_slider (f0 :: rest) s.image_data) f
          = blurRecord s.blur_slider (dget s.image_data f) := by
      intro f hf
      rw [blurPassD_dget _ _ hnd, if_pos hf]
    have hcg : classifyGroups (simThreshold s)
          ((f0 :: rest).map (fun f => (dget s.image_data f).sim_prev))
        = 0 :: groupIdsFrom (simThreshold s) 0
            (rest.map (fun f => (dget s.image_data f).sim_prev)) := rfl
    have hsims : rest.map (fun f =>
          (dget (dset (blurPassD s.blur_slider (f0 :: rest) s.image_data) f0
            { dget (blurPassD s.blur_slider (f0 :: rest) s.image_data) f0 with
              group_id := 0 }) f).sim_prev)
        = rest.map (fun f => (dget s.image_data f).sim_prev) := by
      apply List.map_congr_left
      intro f hf
      have hne : f0 ≠ f := fun e => hf0r (e ▸ hf)
      rw [dget_dset_ne _ _ hne, hBd f (List.mem_cons_of_mem _ hf)]
      simp [blurRecord]
    cases j with
    | zero =>
      rw [List.getD_cons_zero,
        group_pass_dget_notmem _ _ _ _ _ hf0r, dget_dset_self,
        hBd f0 (List.mem_cons_self _ _), hcg]
      simp [blurRecord]
    | succ j2 =>
      have hj2 : j2 < rest.length := by simpa using hj
      have hx : rest.getD j2 0 ∈ rest := list_getD_mem rest j2 0 hj2
      have hxf0 : f0 ≠ rest.getD j2 0 := fun e => hf0r (by rw [e]; exact hx)
      rw [List.getD_cons_succ,
        group_pass_dget_getD _ _ hrestnd 0 _ j2 hj2, hsims,
        dget_dset_ne _ _ hxf0, hBd _ (List.mem_cons_of_mem _ hx), hcg]
      simp [blurRecord]

theorem list_getD_map {α β : Type} (g : α → β) (l : List α) (j : ℕ)
    (h : j < l.length) (a : α) (b : β) :
    (l.map g).getD j b = g (l.getD j a) := by
  induction l generalizing j with
  | nil => simp at h
  | cons x rest ih =>
    cases j with
    | zero => simp
    | succ j2 =>
      have : j2 < rest.length := by simpa using h
      simpa using ih j2 this

theorem list_getD_indexOf {l : List ℕ} {f : ℕ} (hf : f ∈ l) :
    l.getD (l.indexOf f) 0 = f := by
  induction l with
  | nil => simp at hf
  | cons a rest ih =>
    by_cases h : a = f
    · subst h
      simp
    · have hf2 : f ∈ rest := by
        rcases List.mem_cons.mp hf with h2 | h2
        · exact absurd h2.symm h
        · exact h2
      have : (a :: rest).indexOf f = rest.indexOf f + 1 :=
        List.indexOf_cons_ne rest h
      rw [this, List.getD_cons_succ]
      exact ih hf2

/-- The group id a record carries after a full re-classification: position
`j` of the `classifyGroups` list over the stored similarity values. -/
theorem refresh_group_id (s : AppState)
    (hkeys : s.image_data.map Prod.fst = s.files) (hnd : s.files.Nodup)
    (j : ℕ) (hj : j < s.files.length) :
    (dget (refresh_judgments_instantly s).image_data (s.files.getD j 0)).group_id
      = (classifyGroups (simThreshold s)
          (s.files.map (fun f => (dget s.image_data f).sim_prev))).getD j 0 := by
  rw [refresh_eq]
  show (dget (refreshD s) (s.files.getD j 0)).group_id = _
  rw [refreshD_dget s hkeys hnd j hj]

/-- The blur flag a record carries after a full re-classification. -/
theorem refresh_is_blur (s : AppState)
    (hkeys : s.image_data.map Prod.fst = s.files) (hnd : s.files.Nodup)
    (f : ℕ) (hf : f ∈ s.files) :
    (dget (refresh_judgments_instantly s).image_data f).is_blur
      = decide ((dget s.image_data f).score < (s.blur_slider : ℚ)) := by
  have hlt : s.files.indexOf f < s.files.length := List.indexOf_lt_length.mpr hf
  have hgd := list_getD_indexOf hf
  rw [refresh_eq]
  show (dget (refreshD s) f).is_blur = _
  rw [← hgd, refreshD_dget s hkeys hnd _ hlt]

/-- Similarity values are left unchanged by a full re-classification. -/
theorem refresh_sim_prev (s : AppState)
    (hkeys : s.image_data.map Prod.fst = s.files) (hnd : s.files.Nodup)
    (f : ℕ) (hf : f ∈ s.files) :
    (dget (refresh_judgments_instantly s).image_data f).sim_prev
      = (dget s.image_data f).sim_prev := by
  have hlt : s.files.indexOf f < s.files.length := List.indexOf_lt_length.mpr hf
  have hgd := list_getD_indexOf hf
  rw [refresh_eq]
  show (dget (refreshD s) f).sim_prev = _
  rw [← hgd, refreshD_dget s hkeys hnd _ hlt]

/-! ### Claim C1 -/

/-- The adjacency rule of the group pass: after a full re-classification,
each file's group id is its predecessor's, incremented exactly when the
stored similarity misses the threshold. -/
theorem refresh_adjacent_rule (s : AppState)
    (hkeys : s.image_data.map Prod.fst = s.files) (hnd : s.files.Nodup) :
    ∀ i, i + 1 < s.files.length →
      (dget (refresh_judgments_instantly s).image_data
          (s.files.getD (i + 1) 0)).group_id
        = (if simThreshold s ≤ (dget s.image_data (s.files.getD (i + 1) 0)).sim_prev
           then (dget (refresh_judgments_instantly s).image_data
              (s.files.getD i 0)).group_id
           else (dget (refresh_judgments_instantly s).image_data
              (s.files.getD i 0)).group_id + 1) := by
  intro i hi
  have hi0 : i < s.files.length := by omega
  have hlen : i + 1 <
      (s.files.map (fun f => (dget s.image_data f).sim_prev)).length := by
    simpa using hi
  rw [refresh_group_id s hkeys hnd (i + 1) hi, refresh_group_id s hkeys hnd i hi0,
    classifyGroups_adjacent _ _ i hlen,
    list_getD_map (fun f => (dget s.image_data f).sim_prev) s.files (i + 1) hi 0 0]

/-- After a full re-classification the first file carries group id 0. -/
theorem refresh_head_zero (s : AppState)
    (hkeys : s.image_data.map Prod.fst = s.files) (hnd : s.files.Nodup)
    (hne : s.files ≠ []) :
    (dget (refresh_judgments_instantly s).image_data (s.files.getD 0 0)).group_id
      = 0 := by
  obtain ⟨f0, rest, hfs⟩ := List.exists_cons_of_ne_nil hne
  have h0 : 0 < s.files.length := by
    rw [hfs]
    simp
  rw [refresh_group_id s hkeys hnd 0 h0]
  have : s.files.map (fun f => (dget s.image_data f).sim_prev)
      = (dget s.image_data f0).sim_prev
          :: rest.map (fun f => (dget s.image_data f).sim_prev) := by
    rw [hfs]
    rfl
  rw [this, classifyGroups_getD_zero]

/-- C1: full re-classification on a threshold change assigns group ids by a
single sequential pass over the stored file order.  The first file gets
group id 0; every later file gets the running group when its stored
`sim_prev` is at least the similarity threshold and the incremented group
otherwise; equivalently, for every adjacent pair the group ids agree iff
the later file's stored `sim_prev` is at least the threshold. -/
theorem claim_C1_full_reclassify_boundary (s : AppState)
    (hkeys : s.image_data.map Prod.fst = s.files) (hnd : s.files.Nodup) :
    (s.files ≠ [] →
      (dget (refresh_judgments_instantly s).image_data (s.files.getD 0 0)).group_id = 0)
    ∧ (∀ i, i + 1 < s.files.length →
        (dget (refresh_judgments_instantly s).image_data
            (s.files.getD (i + 1) 0)).group_id
          = (if simThreshold s ≤ (dget s.image_data (s.files.getD (i + 1) 0)).sim_prev
             then (dget (refresh_judgments_instantly s).image_data
                (s.files.getD i 0)).group_id
             else (dget (refresh_judgments_instantly s).image_data
                (s.files.getD i 0)).group_id + 1))
    ∧ (∀ i, i + 1 < s.files.length →
        ((dget (refresh_judgments_instantly s).image_data
            (s.files.getD (i + 1) 0)).group_id
          = (dget (refresh_judgments_instantly s).image_data
            (s.files.getD i 0)).group_id
          ↔ simThreshold s ≤ (dget s.image_data (s.files.getD (i + 1) 0)).sim_prev)) := by
  refine ⟨refresh_head_zero s hkeys hnd, refresh_adjacent_rule s hkeys hnd, ?_⟩
  · intro i hi
    have h := refresh_adjacent_rule s hkeys hnd i hi
    by_cases hc : simThreshold s ≤ (dget s.image_data (s.files.getD (i + 1) 0)).sim_prev
    · rw [if_pos hc] at h
      exact ⟨fun _ => hc, fun _ => h⟩
    · rw [if_neg hc] at h
      constructor
      · intro he
        rw [he] at h
        omega
      · intro he
        exact absurd he hc

/-- Witness for C1 at a concrete three-file state. -/
theorem claim_C1_witness :
    (dget (refresh_judgments_instantly
        (handle_analysis_result (handle_analysis_result
          (handle_analysis_result (initState [0, 1, 2]) 0 300 0)
          1 300 (mkRat 95 100)) 2 300 (mkRat 40 100))).image_data 1).group_id
      = (dget (refresh_judgments_instantly
        (handle_analysis_result (handle_analysis_result
          (handle_analysis_result (initState [0, 1, 2]) 0 300 0)
          1 300 (mkRat 95 100)) 2 300 (mkRat 40 100))).image_data 0).group_id := by
  have h := claim_C1_full_reclassify_boundary
    (handle_analysis_result (handle_analysis_result
      (handle_analysis_result (initState [0, 1, 2]) 0 300 0)
      1 300 (mkRat 95 100)) 2 300 (mkRat 40 100)) (by decide) (by decide)
  have h2 := (h.2.2 0 (by decide)).mpr (by decide)
  simpa using h2

/-! ### Claim C4 -/

/-- C4 as stated is false: group ids are NOT monotone along file order at
all times after every operation.  After ingesting the analysis result of
only the first of two files, the first file holds group id 0 while the
second still holds the `-1` sentinel, so the sequence decreases. -/
theorem claim_C4_counterexample :
    ¬ ((dget (handle_analysis_result (initState [0, 1]) 0 200 0).image_data
          ((handle_analysis_result (initState [0, 1]) 0 200 0).files.getD 0 0)).group_id
        ≤ (dget (handle_analysis_result (initState [0, 1]) 0 200 0).image_data
          ((handle_analysis_result (initState [0, 1]) 0 200 0).files.getD 1 0)).group_id) := by
  decide

/-- C4 amended: immediately after a full re-classification pass, group ids
are non-decreasing along file order, consecutive files differ by exactly 0
or 1, and the first file has group id 0.  (During incremental ingestion
not-yet-ingested records still hold the `-1` sentinel, so the invariant
does not hold after every operation.) -/
theorem claim_C4_amended_monotone_after_full_pass (s : AppState)
    (hkeys : s.image_data.map Prod.fst = s.files) (hnd : s.files.Nodup) :
    (s.files ≠ [] →
      (dget (refresh_judgments_instantly s).image_data (s.files.getD 0 0)).group_id = 0)
    ∧ (∀ i, i + 1 < s.files.length →
        (dget (refresh_judgments_instantly s).image_data
            (s.files.getD i 0)).group_id
          ≤ (dget (refresh_judgments_instantly s).image_data
            (s.files.getD (i + 1) 0)).group_id
        ∧ (dget (refresh_judgments_instantly s).image_data
            (s.files.getD (i + 1) 0)).group_id
          ≤ (dget (refresh_judgments_instantly s).image_data
            (s.files.getD i 0)).group_id + 1) := by
  refine ⟨refresh_head_zero s hkeys hnd, ?_⟩
  intro i hi
  have h := refresh_adjacent_rule s hkeys hnd i hi
  by_cases hc : simThreshold s ≤ (dget s.image_data (s.files.getD (i + 1) 0)).sim_prev
  · rw [if_pos hc] at h
    omega
  · rw [if_neg hc] at h
    omega

/-- Witness for the amended C4 at a concrete three-file state. -/
theorem claim_C4_amended_witness :
    (dget (refresh_judgments_instantly
        (handle_analysis_result (initState [0, 1]) 0 200 0)).image_data 0).group_id = 0
    ∧ (dget (refresh_judgments_instantly
        (handle_analysis_result (initState [0, 1]) 0 200 0)).image_data 0).group_id
      ≤ (dget (refresh_judgments_instantly
        (handle_analysis_result (initState [0, 1]) 0 200 0)).image_data 1).group_id := by
  have h := claim_C4_amended_monotone_after_full_pass
    (handle_analysis_result (initState [0, 1]) 0 200 0) (by decide) (by decide)
  exact ⟨by simpa using h.1 (by decide), by simpa using (h.2 0 (by decide)).1⟩

/-! ### Claims C2 and C3 -/

theorem apply_true_image_data (s : AppState) (f : ℕ) :
    ∃ g : ℤ,
      (apply_judgment_logic s f true).image_data
        = dset (dset s.image_data f (blurRecord s.blur_slider (dget s.image_data f))) f
            { blurRecord s.blur_slider (dget s.image_data f) with group_id := g } := by
  unfold apply_judgment_logic
  split
  case isFalse h => exact absurd rfl h
  case isTrue _ =>
    dsimp only
    split <;> (try split) <;> (try split) <;> exact ⟨_, rfl⟩

theorem apply_is_blur (s : AppState) (f : ℕ) (b : Bool) :
    (dget (apply_judgment_logic s f b).image_data f).is_blur
      = decide ((dget s.image_data f).score < (s.blur_slider : ℚ)) := by
  cases b
  · rw [apply_false_eq]
    show (dget (dset s.image_data f
      (blurRecord s.blur_slider (dget s.image_data f))) f).is_blur = _
    rw [dget_dset_self]
    rfl
  · obtain ⟨g, hg⟩ := apply_true_image_data s f
    rw [hg, dget_dset_self]
    rfl

theorem ingest_is_blur (s : AppState) (f : ℕ) (bs sm : ℚ) :
    (dget (handle_analysis_result s f bs sm).image_data f).is_blur
      = decide (bs < (s.blur_slider : ℚ)) := by
  unfold handle_analysis_result
  rw [apply_is_blur]
  show decide ((dget (dset s.image_data f
      { dget s.image_data f with score := bs, sim_prev := sm }) f).score < _) = _
  rw [dget_dset_self]

/-- C2 is false as stated: an unanalyzed record (its `score` still at the
initial value `0.0`) IS flagged blur under the default blur threshold 150,
which lies inside the operator range 0-500. -/
theorem claim_C2_counterexample :
    (initState [0]).blur_slider = 150
    ∧ (initState [0]).blur_slider ≤ 500
    ∧ (dget (initState [0]).image_data 0).score = 0
    ∧ (dget (refresh_judgments_instantly (initState [0])).image_data 0).is_blur
        = true := by
  exact ⟨rfl, by decide, by decide, by decide⟩

/-- C2 amended: the sentinel score of an unanalyzed record is `0.0`, not
`-1`, so after a full re-classification such a record is flagged blur
exactly when `blur_threshold > 0`; it is never flagged only at threshold
0. -/
theorem claim_C2_amended_sentinel_blur (s : AppState)
    (hkeys : s.image_data.map Prod.fst = s.files) (hnd : s.files.Nodup)
    (f : ℕ) (hf : f ∈ s.files)
    (hscore : (dget s.image_data f).score = 0) :
    ((dget (refresh_judgments_instantly s).image_data f).is_blur = true
      ↔ 0 < s.blur_slider) := by
  rw [refresh_is_blur s hkeys hnd f hf, hscore]
  simp only [decide_eq_true_eq]
  exact_mod_cast Iff.rfl

/-- Witness for the amended C2 at a concrete one-file state. -/
theorem claim_C2_amended_witness :
    ((dget (refresh_judgments_instantly (initState [5])).image_data 5).is_blur = true
      ↔ 0 < (initState [5]).blur_slider) :=
  claim_C2_amended_sentinel_blur (initState [5]) (by decide) (by decide) 5
    (by decide) (by decide)

/-- C3: in the incremental pass (either `update_group_id` mode), in
ingestion, and in the full re-classification pass, the derived blur flag is
the strict comparison `sharpness_score < blur_threshold` over stored
scores; with a stored score of 150 the flag flips from false to true when
the threshold is raised from 100 to 200. -/
theorem claim_C3_strict_blur_rule (s : AppState)
    (hkeys : s.image_data.map Prod.fst = s.files) (hnd : s.files.Nodup)
    (f : ℕ) (hf : f ∈ s.files) (b : Bool) (bs sm : ℚ) :
    ((dget (apply_judgment_logic s f b).image_data f).is_blur
        = decide ((dget s.image_data f).score < (s.blur_slider : ℚ)))
    ∧ ((dget (handle_analysis_result s f bs sm).image_data f).is_blur
        = decide (bs < (s.blur_slider : ℚ)))
    ∧ ((dget (refresh_judgments_instantly s).image_data f).is_blur
        = decide ((dget s.image_data f).score < (s.blur_slider : ℚ)))
    ∧ ((dget s.image_data f).score = 150 →
        (dget (refresh_judgments_instantly
          { s with blur_slider := 100 }).image_data f).is_blur = false
        ∧ (dget (refresh_judgments_instantly
          { s with blur_slider := 200 }).image_data f).is_blur = true) := by
  refine ⟨apply_is_blur s f b, ingest_is_blur s f bs sm,
    refresh_is_blur s hkeys hnd f hf, ?_⟩
  intro hscore
  constructor
  · rw [refresh_is_blur { s with blur_slider := 100 } hkeys hnd f hf]
    show decide ((dget s.image_data f).score < ((100 : ℕ) : ℚ)) = false
    rw [hscore]
    norm_num
  · rw [refresh_is_blur { s with blur_slider := 200 } hkeys hnd f hf]
    show decide ((dget s.image_data f).score < ((200 : ℕ) : ℚ)) = true
    rw [hscore]
    norm_num

/-- Witness for C3: Scenario B at a concrete one-file state whose stored
score is 150. -/
theorem claim_C3_witness :
    (dget (refresh_judgments_instantly
      { handle_analysis_result (initState [7]) 7 150 0 with
        blur_slider := 100 }).image_data 7).is_blur = false
    ∧ (dget (refresh_judgments_instantly
      { handle_analysis_result (initState [7]) 7 150 0 with
        blur_slider := 200 }).image_data 7).is_blur = true := by
  have h := claim_C3_strict_blur_rule (handle_analysis_result (initState [7]) 7 150 0)
    (by decide) (by decide) 7 (by decide) true 0 0
  exact h.2.2.2 (by decide)

/-! ### Claim C5 -/

theorem mutexD_blurPassD (bth : ℕ) (todo : List ℕ) (d : List (ℕ × ImageRecord))
    (h : MutexD d) : MutexD (blurPassD bth todo d) := by
  induction todo generalizing d with
  | nil => exact h
  | cons a rest ih =>
    have step : blurPassD bth (a :: rest) d
        = blurPassD bth rest (dset d a (blurRecord bth (dget d a))) := rfl
    rw [step]
    exact ih _ (mutexD_dset h (by simpa [blurRecord] using mutexD_dget h a))

theorem mutexD_group_pass (simth : ℚ) (todo : List ℕ) (curr : ℤ)
    (d : List (ℕ × ImageRecord)) (h : MutexD d) :
    MutexD (group_pass simth todo curr d) := by
  induction todo generalizing curr d with
  | nil => exact h
  | cons a rest ih =>
    by_cases hc : simth ≤ (dget d a).sim_prev
    · rw [group_pass, if_pos hc]
      exact ih _ _ (mutexD_dset h (by simpa using mutexD_dget h a))
    · rw [group_pass, if_neg hc]
      exact ih _ _ (mutexD_dset h (by simpa using mutexD_dget h a))

theorem mutexOK_apply (s : AppState) (f : ℕ) (b : Bool) (h : MutexOK s) :
    MutexOK (apply_judgment_logic s f b) := by
  cases b
  · rw [apply_false_eq]
    exact mutexD_dset h (by simpa [blurRecord] using mutexD_dget h f)
  · obtain ⟨g, hg⟩ := apply_true_image_data s f
    show MutexD (apply_judgment_logic s f true).image_data
    rw [hg]
    have h1 : MutexD (dset s.image_data f (blurRecord s.blur_slider (dget s.image_data f))) :=
      mutexD_dset h (by simpa [blurRecord] using mutexD_dget h f)
    exact mutexD_dset h1 (by simpa [blurRecord] using mutexD_dget h f)

theorem mutexOK_ingest (s : AppState) (f : ℕ) (bs sm : ℚ) (h : MutexOK s) :
    MutexOK (handle_analysis_result s f bs sm) := by
  unfold handle_analysis_result
  exact mutexOK_apply _ f true (mutexD_dset h (by simpa using mutexD_dget h f))

theorem mutexOK_refresh (s : AppState) (h : MutexOK s) :
    MutexOK (refresh_judgments_instantly s) := by
  rw [refresh_eq]
  show MutexD (refreshD s)
  unfold refreshD
  rcases s.files with _ | ⟨f0, rest⟩
  · exact mutexD_group_pass _ _ _ _ (mutexD_blurPassD _ _ _ h)
  · have h1 := mutexD_blurPassD s.blur_slider (f0 :: rest) s.image_data h
    exact mutexD_group_pass _ _ _ _
      (mutexD_dset h1 (by simpa using mutexD_dget h1 f0))

theorem mutexD_commit_loop (moveOk : ℕ → Bool) (tp : List (ℕ × MarkAction)) :
    ∀ (s : AppState) (cd cs : ℕ) (mv : List (ℕ × MarkAction)),
      MutexD s.image_data →
      MutexD (commit_loop moveOk tp s cd cs mv).1.image_data := by
  induction tp with
  | nil => intro s cd cs mv h; exact h
  | cons p rest ih =>
    intro s cd cs mv h
    obtain ⟨f, a⟩ := p
    by_cases hok : moveOk f
    · rw [commit_loop, if_pos hok]
      exact ih _ _ _ _ (mutexD_filter h _)
    · rw [commit_loop, if_neg hok]
      exact ih _ _ _ _ h

theorem mutexOK_execute (s : AppState) (moveOk : ℕ → Bool) (h : MutexOK s) :
    MutexOK (execute_actions moveOk s).state := by
  unfold execute_actions
  by_cases he : (to_process s).isEmpty
  · rw [if_pos he]
    exact h
  · rw [if_neg he]
    dsimp only
    split
    · exact mutexD_commit_loop moveOk (to_process s) s 0 0 [] h
    · exact mutexD_commit_loop moveOk (to_process s) s 0 0 [] h

/-- C5: the two operator marks are mutually exclusive at all times: the
initial state is unmarked and every operation (both toggles, ingestion,
full re-classification, commit) preserves mutual exclusion.  The toggle
state machine behaves as claimed on the current record: toggling delete
while select is active clears select (and vice versa), toggling an
already-active mark returns the record to unmarked, and toggling delete
then select on an unmarked file leaves exactly
`marked_delete = false, marked_select = true`. -/
theorem claim_C5_mark_mutual_exclusion (s : AppState) (hm : MutexOK s)
    (fs : List ℕ) (moveOk : ℕ → Bool) (f : ℕ) (bs sm : ℚ) :
    MutexOK (initState fs)
    ∧ MutexOK (toggle_delete s)
    ∧ MutexOK (toggle_select s)
    ∧ MutexOK (handle_analysis_result s f bs sm)
    ∧ MutexOK (refresh_judgments_instantly s)
    ∧ MutexOK (execute_actions moveOk s).state
    ∧ ((dget s.image_data (s.files.getD s.current_idx 0)).to_select = true →
       (dget (toggle_delete s).image_data
          (s.files.getD s.current_idx 0)).to_delete = true
       ∧ (dget (toggle_delete s).image_data
          (s.files.getD s.current_idx 0)).to_select = false)
    ∧ ((dget s.image_data (s.files.getD s.current_idx 0)).to_delete = true →
       (dget (toggle_select s).image_data
          (s.files.getD s.current_idx 0)).to_select = true
       ∧ (dget (toggle_select s).image_data
          (s.files.getD s.current_idx 0)).to_delete = false)
    ∧ ((dget s.image_data (s.files.getD s.current_idx 0)).to_delete = true →
       (dget (toggle_delete s).image_data
          (s.files.getD s.current_idx 0)).to_delete = false
       ∧ (dget (toggle_delete s).image_data
          (s.files.getD s.current_idx 0)).to_select = false)
    ∧ ((dget s.image_data (s.files.getD s.current_idx 0)).to_select = true →
       (dget (toggle_select s).image_data
          (s.files.getD s.current_idx 0)).to_select = false
       ∧ (dget (toggle_select s).image_data
          (s.files.getD s.current_idx 0)).to_delete = false)
    ∧ ((dget s.image_data (s.files.getD s.current_idx 0)).to_delete = false →
       (dget s.image_data (s.files.getD s.current_idx 0)).to_select = false →
       (dget (toggle_select (toggle_delete s)).image_data
          (s.files.getD s.current_idx 0)).to_delete = false
       ∧ (dget (toggle_select (toggle_delete s)).image_data
          (s.files.getD s.current_idx 0)).to_select = true) := by
  have hmx := mutexD_dget hm (s.files.getD s.current_idx 0)
  refine ⟨?_, ?_, ?_, mutexOK_ingest s f bs sm hm, mutexOK_refresh s hm,
    mutexOK_execute s moveOk hm, ?_, ?_, ?_, ?_, ?_⟩
  · intro p hp
    unfold initState at hp
    simp only [List.mem_map] at hp
    obtain ⟨f2, _, hf2⟩ := hp
    rw [← hf2]
    simp [initRecord]
  · unfold toggle_delete
    apply mutexD_dset hm
    set x := s.files.getD s.current_idx 0 with hxdef
    by_cases hd : (dget s.image_data x).to_delete <;> simp [hd]
  · unfold toggle_select
    apply mutexD_dset hm
    set x := s.files.getD s.current_idx 0 with hxdef
    by_cases hsel : (dget s.image_data x).to_select <;> simp [hsel]
  · intro hsel
    have hd : (dget s.image_data (s.files.getD s.current_idx 0)).to_delete
        = false := by
      cases hd0 : (dget s.image_data (s.files.getD s.current_idx 0)).to_delete
      · rfl
      · exact absurd ⟨hd0, hsel⟩ hmx
    unfold toggle_delete
    dsimp only
    set x := s.files.getD s.current_idx 0 with hxdef
    simp [dget_dset_self, hd, hsel]
  · intro hd
    have hsel : (dget s.image_data (s.files.getD s.current_idx 0)).to_select
        = false := by
      cases hs0 : (dget s.image_data (s.files.getD s.current_idx 0)).to_select
      · rfl
      · exact absurd ⟨hd, hs0⟩ hmx
    unfold toggle_select
    dsimp only
    set x := s.files.getD s.current_idx 0 with hxdef
    simp [dget_dset_self, hd, hsel]
  · intro hd
    have hsel : (dget s.image_data (s.files.getD s.current_idx 0)).to_select
        = false := by
      cases hs0 : (dget s.image_data (s.files.getD s.current_idx 0)).to_select
      · rfl
      · exact absurd ⟨hd, hs0⟩ hmx
    unfold toggle_delete
    dsimp only
    set x := s.files.getD s.current_idx 0 with hxdef
    simp [dget_dset_self, hd, hsel]
  · intro hsel
    have hd : (dget s.image_data (s.files.getD s.current_idx 0)).to_delete
        = false := by
      cases hd0 : (dget s.image_data (s.files.getD s.current_idx 0)).to_delete
      · rfl
      · exact absurd ⟨hd0, hsel⟩ hmx
    unfold toggle_select
    dsimp only
    set x := s.files.getD s.current_idx 0 with hxdef
    simp [dget_dset_self, hd, hsel]
  · intro hd hsel
    unfold toggle_select toggle_delete
    dsimp only
    set x := s.files.getD s.current_idx 0 with hxdef
    simp [dget_dset_self, hd, hsel]

/-- Witness for C5 at concrete one-file states: Scenario C
(unmarked, delete, then select), toggling the active delete mark back to
unmarked, and toggling select while delete is active. -/
theorem claim_C5_witness :
    MutexOK (toggle_delete (initState [3]))
    ∧ ((dget (toggle_select (toggle_delete (initState [3]))).image_data 3).to_delete
          = false
       ∧ (dget (toggle_select (toggle_delete (initState [3]))).image_data 3).to_select
          = true)
    ∧ ((dget (toggle_delete (toggle_delete (initState [3]))).image_data 3).to_delete
          = false
       ∧ (dget (toggle_delete (toggle_delete (initState [3]))).image_data 3).to_select
          = false)
    ∧ ((dget (toggle_select (toggle_delete (initState [3]))).image_data 3).to_select
          = true
       ∧ (dget (toggle_select (toggle_delete (initState [3]))).image_data 3).to_delete
          = false) := by
  have h := claim_C5_mark_mutual_exclusion (initState [3]) (by decide) [3]
    (fun _ => true) 3 0 0
  have h2 := claim_C5_mark_mutual_exclusion (toggle_delete (initState [3]))
    (by decide) [3] (fun _ => true) 3 0 0
  have hs := h.2.2.2.2.2.2.2.2.2.2 (by decide) (by decide)
  have hu := h2.2.2.2.2.2.2.2.2.1 (by decide)
  have hc := h2.2.2.2.2.2.2.2.1 (by decide)
  exact ⟨h.2.1, ⟨by simpa using hs.1, by simpa using hs.2⟩,
    ⟨by simpa using hu.1, by simpa using hu.2⟩,
    ⟨by simpa using hc.1, by simpa using hc.2⟩⟩

/-! ### The commit loop -/

theorem commit_loop_spec (moveOk : ℕ → Bool) :
    ∀ (tp : List (ℕ × MarkAction)) (s : AppState) (cd cs : ℕ)
      (mv : List (ℕ × MarkAction)), s.files.Nodup →
      (commit_loop moveOk tp s cd cs mv).1.files
          = s.files.filter (fun x => !(decide (x ∈ tp.map Prod.fst) && moveOk x))
      ∧ (commit_loop moveOk tp s cd cs mv).1.image_data
          = s.image_data.filter
              (fun p => !(decide (p.1 ∈ tp.map Prod.fst) && moveOk p.1))
      ∧ (commit_loop moveOk tp s cd cs mv).1.group_counts = s.group_counts
      ∧ (commit_loop moveOk tp s cd cs mv).1.blur_slider = s.blur_slider
      ∧ (commit_loop moveOk tp s cd cs mv).1.sim_slider = s.sim_slider
      ∧ (commit_loop moveOk tp s cd cs mv).1.current_idx = s.current_idx
      ∧ (commit_loop moveOk tp s cd cs mv).2.1
          = cd + (tp.filter (fun p => p.2 == MarkAction.delete && moveOk p.1)).length
      ∧ (commit_loop moveOk tp s cd cs mv).2.2.1
          = cs + (tp.filter (fun p => p.2 == MarkAction.select && moveOk p.1)).length
      ∧ (commit_loop moveOk tp s cd cs mv).2.2.2
          = mv ++ tp.filter (fun p => moveOk p.1) := by
  intro tp
  induction tp with
  | nil =>
    intro s cd cs mv hnd
    refine ⟨?_, ?_, rfl, rfl, rfl, rfl, by simp [commit_loop], by simp [commit_loop],
      by simp [commit_loop]⟩
    · simp [commit_loop]
    · simp [commit_loop]
  | cons p rest ih =>
    intro s cd cs mv hnd
    obtain ⟨f, a⟩ := p
    by_cases hok : moveOk f
    · rw [commit_loop, if_pos hok]
      dsimp only
      obtain ⟨h1, h2, h3, h4, h5, h6, h7, h8, h9⟩ :=
        ih { s with files := s.files.erase f, image_data := ddel s.image_data f }
          (if a = MarkAction.delete then cd + 1 else cd)
          (if a = MarkAction.select then cs + 1 else cs)
          (mv ++ [(f, a)]) (hnd.erase f)
      refine ⟨?_, ?_, h3, h4, h5, h6, ?_, ?_, ?_⟩
      · rw [h1]
        show (s.files.erase f).filter _ = _
        rw [hnd.erase_eq_filter f, List.filter_filter]
        apply List.filter_congr
        intro x _
        rw [Bool.eq_iff_iff]
        by_cases hxf : x = f <;> simp [hxf, hok]
      · rw [h2]
        show (ddel s.image_data f).filter _ = _
        unfold ddel
        rw [List.filter_filter]
        apply List.filter_congr
        intro q _
        rw [Bool.eq_iff_iff]
        by_cases hxf : q.1 = f <;> simp [hxf, hok]
      · rw [h7]
        rcases a with _ | _ <;> simp [hok] <;> omega
      · rw [h8]
        rcases a with _ | _ <;> simp [hok] <;> omega
      · rw [h9]
        simp [hok]
    · rw [commit_loop, if_neg hok]
      obtain ⟨h1, h2, h3, h4, h5, h6, h7, h8, h9⟩ := ih s cd cs mv hnd
      have hokf : moveOk f = false := by simpa using hok
      refine ⟨?_, ?_, h3, h4, h5, h6, ?_, ?_, ?_⟩
      · rw [h1]
        apply List.filter_congr
        intro x _
        rw [Bool.eq_iff_iff]
        by_cases hxf : x = f <;> simp [hxf, hokf]
      · rw [h2]
        apply List.filter_congr
        intro q _
        rw [Bool.eq_iff_iff]
        by_cases hxf : q.1 = f <;> simp [hxf, hokf]
      · rw [h7]
        simp [hokf]
      · rw [h8]
        simp [hokf]
      · rw [h9]
        simp [hokf]

/-- The per-file case analysis of the `to_process` construction
(lines 470-474): `delete` wins over `select`, unmarked files yield no
entry. -/
def markEntry (d : List (ℕ × ImageRecord)) (f : ℕ) : Option (ℕ × MarkAction) :=
  if (dget d f).to_delete then some (f, MarkAction.delete)
  else if (dget d f).to_select then some (f, MarkAction.select)
  else none

theorem to_process_eq (s : AppState) :
    to_process s = s.files.filterMap (markEntry s.image_data) := rfl

theorem filterMap_mark_fsts (d : List (ℕ × ImageRecord)) (l : List ℕ) :
    (l.filterMap (markEntry d)).map Prod.fst
      = l.filter (fun f => (dget d f).to_delete || (dget d f).to_select) := by
  induction l with
  | nil => rfl
  | cons a rest ih =>
    by_cases h1 : (dget d a).to_delete
    · simp [List.filterMap_cons, markEntry, h1, List.filter_cons, ih]
    · by_cases h2 : (dget d a).to_select <;>
        simp [List.filterMap_cons, markEntry, h1, h2, List.filter_cons, ih]

theorem filterMap_mark_count_del (d : List (ℕ × ImageRecord)) (ok : ℕ → Bool)
    (l : List ℕ) :
    ((l.filterMap (markEntry d)).filter
        (fun p => p.2 == MarkAction.delete && ok p.1)).length
      = (l.filter (fun f => (dget d f).to_delete && ok f)).length := by
  induction l with
  | nil => rfl
  | cons a rest ih =>
    by_cases h1 : (dget d a).to_delete
    · by_cases h3 : ok a <;>
        simp [List.filterMap_cons, markEntry, h1, h3, List.filter_cons, ih]
    · by_cases h2 : (dget d a).to_select <;> by_cases h3 : ok a <;>
        simp [List.filterMap_cons, markEntry, h1, h2, h3, List.filter_cons, ih]

theorem filterMap_mark_count_sel (d : List (ℕ × ImageRecord)) (ok : ℕ → Bool)
    (l : List ℕ) :
    ((l.filterMap (markEntry d)).filter
        (fun p => p.2 == MarkAction.select && ok p.1)).length
      = (l.filter (fun f =>
          !(dget d f).to_delete && ((dget d f).to_select && ok f))).length := by
  induction l with
  | nil => rfl
  | cons a rest ih =>
    by_cases h1 : (dget d a).to_delete
    · by_cases h3 : ok a <;>
        simp [List.filterMap_cons, markEntry, h1, h3, List.filter_cons, ih]
    · by_cases h2 : (dget d a).to_select <;> by_cases h3 : ok a <;>
        simp [List.filterMap_cons, markEntry, h1, h2, h3, List.filter_cons, ih]

theorem filterMap_mark_filter (d d2 : List (ℕ × ImageRecord)) (q : ℕ → Bool)
    (l : List ℕ) (h : ∀ f ∈ l, q f = true → dget d2 f = dget d f) :
    (l.filter q).filterMap (markEntry d2)
      = (l.filterMap (markEntry d)).filter (fun p => q p.1) := by
  induction l with
  | nil => rfl
  | cons a rest ih =>
    have hrest := fun f hf => h f (List.mem_cons_of_mem _ hf)
    by_cases hq : q a
    · have hda := h a (List.mem_cons_self _ _) hq
      by_cases h1 : (dget d a).to_delete
      · simp [List.filter_cons, hq, List.filterMap_cons, markEntry, hda, h1, ih hrest]
      · by_cases h2 : (dget d a).to_select <;>
          simp [List.filter_cons, hq, List.filterMap_cons, markEntry, hda, h1, h2,
            ih hrest]
    · by_cases h1 : (dget d a).to_delete
      · simp [List.filter_cons, hq, List.filterMap_cons, markEntry, h1, ih hrest]
      · by_cases h2 : (dget d a).to_select <;>
          simp [List.filter_cons, hq, List.filterMap_cons, markEntry, h1, h2, ih hrest]

theorem mem_files_of_mem_to_process (s : AppState) (p : ℕ × MarkAction)
    (hp : p ∈ to_process s) : p.1 ∈ s.files := by
  rw [to_process_eq] at hp
  obtain ⟨a, ha, hpa⟩ := List.mem_filterMap.mp hp
  unfold markEntry at hpa
  by_cases h1 : (dget s.image_data a).to_delete
  · rw [if_pos h1] at hpa
    obtain rfl : (a, MarkAction.delete) = p := Option.some.inj hpa
    exact ha
  · rw [if_neg h1] at hpa
    by_cases h2 : (dget s.image_data a).to_select
    · rw [if_pos h2] at hpa
      obtain rfl : (a, MarkAction.select) = p := Option.some.inj hpa
      exact ha
    · rw [if_neg h2] at hpa
      exact absurd hpa (Option.some_ne_none _).symm

theorem to_process_mem_del (s : AppState) (f : ℕ) (hf : f ∈ s.files)
    (hd : (dget s.image_data f).to_delete = true) :
    (f, MarkAction.delete) ∈ to_process s := by
  rw [to_process_eq]
  exact List.mem_filterMap.mpr ⟨f, hf, by simp [markEntry, hd]⟩

theorem to_process_mem_sel (s : AppState) (f : ℕ) (hf : f ∈ s.files)
    (hd : (dget s.image_data f).to_delete = false)
    (hsel : (dget s.image_data f).to_select = true) :
    (f, MarkAction.select) ∈ to_process s := by
  rw [to_process_eq]
  exact List.mem_filterMap.mpr ⟨f, hf, by simp [markEntry, hd, hsel]⟩

theorem appState_ext (s1 s2 : AppState) (h1 : s1.files = s2.files)
    (h2 : s1.image_data = s2.image_data) (h3 : s1.group_counts = s2.group_counts)
    (h4 : s1.blur_slider = s2.blur_slider) (h5 : s1.sim_slider = s2.sim_slider)
    (h6 : s1.current_idx = s2.current_idx) : s1 = s2 := by
  cases s1
  cases s2
  simp_all

/-- Full characterization of `execute_actions`: the surviving file list and
dict are the originals filtered of the successfully moved marked files, the
counters tally the successful moves per destination, the move list is the
processed list restricted to successful moves, and the viewing index is
clamped only when the loop ran and left it out of bounds. -/
theorem execute_actions_spec (moveOk : ℕ → Bool) (s : AppState)
    (hnd : s.files.Nodup) :
    (execute_actions moveOk s).state.files
        = s.files.filter
            (fun x => !(decide (x ∈ (to_process s).map Prod.fst) && moveOk x))
    ∧ (execute_actions moveOk s).state.image_data
        = s.image_data.filter
            (fun p => !(decide (p.1 ∈ (to_process s).map Prod.fst) && moveOk p.1))
    ∧ (execute_actions moveOk s).state.group_counts = s.group_counts
    ∧ (execute_actions moveOk s).state.blur_slider = s.blur_slider
    ∧ (execute_actions moveOk s).state.sim_slider = s.sim_slider
    ∧ (execute_actions moveOk s).count_del
        = ((to_process s).filter
            (fun p => p.2 == MarkAction.delete && moveOk p.1)).length
    ∧ (execute_actions moveOk s).count_sel
        = ((to_process s).filter
            (fun p => p.2 == MarkAction.select && moveOk p.1)).length
    ∧ (execute_actions moveOk s).moves = (to_process s).filter (fun p => moveOk p.1)
    ∧ (execute_actions moveOk s).state.current_idx
        = (if (to_process s).isEmpty then s.current_idx
           else if (s.files.filter (fun x =>
                !(decide (x ∈ (to_process s).map Prod.fst) && moveOk x))).length
              ≤ s.current_idx
           then (s.files.filter (fun x =>
                !(decide (x ∈ (to_process s).map Prod.fst) && moveOk x))).length - 1
           else s.current_idx) := by
  by_cases he : (to_process s).isEmpty
  · have htp : to_process s = [] := List.isEmpty_iff.mp he
    have hE : execute_actions moveOk s = ⟨s, 0, 0, []⟩ := by
      unfold execute_actions
      rw [if_pos he]
    rw [hE, htp]
    refine ⟨?_, ?_, rfl, rfl, rfl, by simp, by simp, by simp, by simp⟩
    · show s.files = _
      symm
      rw [List.filter_eq_self]
      intro x _
      simp
    · show s.image_data = _
      symm
      rw [List.filter_eq_self]
      intro p _
      simp
  · obtain ⟨h1, h2, h3, h4, h5, h6, h7, h8, h9⟩ :=
      commit_loop_spec moveOk (to_process s) s 0 0 [] hnd
    have hE : execute_actions moveOk s
        = (let s1 := (commit_loop moveOk (to_process s) s 0 0 []).1
           let s2 := if s1.files.length ≤ s1.current_idx then
              { s1 with current_idx := s1.files.length - 1 } else s1
           ⟨s2, (commit_loop moveOk (to_process s) s 0 0 []).2.1,
             (commit_loop moveOk (to_process s) s 0 0 []).2.2.1,
             (commit_loop moveOk (to_process s) s 0 0 []).2.2.2⟩) := by
      unfold execute_actions
      rw [if_neg he]
    rw [hE]
    dsimp only
    rw [h6, h1]
    by_cases hc : (s.files.filter (fun x =>
        !(decide (x ∈ (to_process s).map Prod.fst) && moveOk x))).length
        ≤ s.current_idx
    · rw [if_pos hc]
      refine ⟨rfl, h2, h3, h4, h5, by simpa using h7,
        by simpa using h8, by simpa using h9, ?_⟩
      rw [if_neg he, if_pos hc]
    · rw [if_neg hc]
      refine ⟨h1, h2, h3, h4, h5, by simpa using h7, by simpa using h8,
        by simpa using h9, ?_⟩
      rw [if_neg he, if_neg hc]
      exact h6

/-! ### Claim C6 -/

/-- C6: each move during commit is independent.  A file whose move fails
keeps its record (marks included) and its place in the file list, the
reported counts tally exactly the successful moves (the loop never aborts
early), the failed file is never among the performed moves, and running
commit again with the same move outcomes leaves the state fixed and
performs no further moves. -/
theorem claim_C6_commit_failure_isolation (s : AppState) (hnd : s.files.Nodup)
    (moveOk : ℕ → Bool) :
    (∀ f ∈ s.files, moveOk f = false →
        f ∈ (execute_actions moveOk s).state.files
        ∧ dget (execute_actions moveOk s).state.image_data f = dget s.image_data f)
    ∧ (execute_actions moveOk s).count_del
        = ((to_process s).filter
            (fun p => p.2 == MarkAction.delete && moveOk p.1)).length
    ∧ (execute_actions moveOk s).count_sel
        = ((to_process s).filter
            (fun p => p.2 == MarkAction.select && moveOk p.1)).length
    ∧ (execute_actions moveOk s).moves = (to_process s).filter (fun p => moveOk p.1)
    ∧ (∀ (f : ℕ) (a : MarkAction), moveOk f = false →
        (f, a) ∉ (execute_actions moveOk s).moves)
    ∧ (execute_actions moveOk (execute_actions moveOk s).state).state
        = (execute_actions moveOk s).state
    ∧ (execute_actions moveOk (execute_actions moveOk s).state).moves = [] := by
  obtain ⟨e1, e2, e3, e4, e5, e6, e7, e8, e9⟩ := execute_actions_spec moveOk s hnd
  have hndE : (execute_actions moveOk s).state.files.Nodup := by
    rw [e1]
    exact hnd.filter _
  have hdget : ∀ f : ℕ, moveOk f = false →
      dget (execute_actions moveOk s).state.image_data f = dget s.image_data f := by
    intro f hok
    rw [e2]
    exact @dget_filter s.image_data
      (fun x => !(decide (x ∈ (to_process s).map Prod.fst) && moveOk x)) f
      (by simp [hok])
  have hcong : ∀ f ∈ s.files,
      (fun x => !(decide (x ∈ (to_process s).map Prod.fst) && moveOk x)) f = true →
      dget (s.image_data.filter
          (fun p => !(decide (p.1 ∈ (to_process s).map Prod.fst) && moveOk p.1))) f
        = dget s.image_data f := by
    intro f _ hq
    exact @dget_filter s.image_data
      (fun x => !(decide (x ∈ (to_process s).map Prod.fst) && moveOk x)) f hq
  have htp2 : to_process (execute_actions moveOk s).state
      = (to_process s).filter
          (fun p => !(decide (p.1 ∈ (to_process s).map Prod.fst) && moveOk p.1)) := by
    rw [to_process_eq, e1, e2]
    rw [filterMap_mark_filter s.image_data
      (s.image_data.filter
        (fun p => !(decide (p.1 ∈ (to_process s).map Prod.fst) && moveOk p.1)))
      (fun x => !(decide (x ∈ (to_process s).map Prod.fst) && moveOk x))
      s.files hcong, ← to_process_eq]
  have hfail : ∀ p ∈ to_process (execute_actions moveOk s).state,
      moveOk p.1 = false := by
    intro p hp
    rw [htp2] at hp
    have h2 := List.mem_filter.mp hp
    have hmem : p.1 ∈ (to_process s).map Prod.fst :=
      List.mem_map_of_mem Prod.fst h2.1
    have h3 := h2.2
    rw [decide_eq_true hmem] at h3
    simpa using h3
  refine ⟨?_, e6, e7, e8, ?_, ?_⟩
  · intro f hf hok
    refine ⟨?_, hdget f hok⟩
    rw [e1]
    exact List.mem_filter.mpr ⟨hf, by simp [hok]⟩
  · intro f a hok hmem
    rw [e8] at hmem
    have := (List.mem_filter.mp hmem).2
    simp [hok] at this
  · by_cases he2 : (to_process (execute_actions moveOk s).state).isEmpty
    · have hE2 : ∀ t : AppState, (to_process t).isEmpty = true →
          execute_actions moveOk t = ⟨t, 0, 0, []⟩ := by
        intro t ht
        unfold execute_actions
        rw [if_pos ht]
      rw [hE2 _ he2]
      exact ⟨rfl, rfl⟩
    · obtain ⟨f1, f2, f3, f4, f5, f6, f7, f8, f9⟩ :=
        execute_actions_spec moveOk (execute_actions moveOk s).state hndE
      have hmoves2 : (execute_actions moveOk
          (execute_actions moveOk s).state).moves = [] := by
        rw [f8, List.filter_eq_nil_iff]
        intro p hp
        simp [hfail p hp]
      have hpred2 : ∀ x : ℕ,
          (!(decide (x ∈ (to_process (execute_actions moveOk s).state).map Prod.fst)
            && moveOk x)) = true := by
        intro x
        by_cases hx : x ∈ (to_process (execute_actions moveOk s).state).map Prod.fst
        · obtain ⟨p, hp, hpx⟩ := List.mem_map.mp hx
          have hf := hfail p hp
          rw [hpx] at hf
          simp [hx, hf]
        · simp [hx]
      have hfiles2 : (execute_actions moveOk
            (execute_actions moveOk s).state).state.files
          = (execute_actions moveOk s).state.files := by
        rw [f1, List.filter_eq_self]
        intro a _
        exact hpred2 a
      have himg2 : (execute_actions moveOk
            (execute_actions moveOk s).state).state.image_data
          = (execute_actions moveOk s).state.image_data := by
        rw [f2, List.filter_eq_self]
        intro p _
        exact hpred2 p.1
      have htpne : ¬(to_process s).isEmpty = true := by
        intro hcon
        apply he2
        rw [htp2, List.isEmpty_iff.mp hcon]
        rfl
      have hlenpos : 0 < (execute_actions moveOk s).state.files.length := by
        have hne : to_process (execute_actions moveOk s).state ≠ [] := by
          simpa [List.isEmpty_iff] using he2
        obtain ⟨p, hp⟩ := List.exists_mem_of_ne_nil _ hne
        exact List.length_pos.mpr
          (List.ne_nil_of_mem (mem_files_of_mem_to_process _ p hp))
      have hidxlt : (execute_actions moveOk s).state.current_idx
          < (execute_actions moveOk s).state.files.length := by
        rw [e9, if_neg htpne, e1]
        rw [e1] at hlenpos
        by_cases hcc : (s.files.filter (fun x =>
            !(decide (x ∈ (to_process s).map Prod.fst) && moveOk x))).length
            ≤ s.current_idx
        · rw [if_pos hcc]
          omega
        · rw [if_neg hcc]
          omega
      have hidx2 : (execute_actions moveOk
            (execute_actions moveOk s).state).state.current_idx
          = (execute_actions moveOk s).state.current_idx := by
        rw [f9, if_neg he2]
        have hself : ((execute_actions moveOk s).state.files.filter (fun x =>
            !(decide (x ∈ (to_process (execute_actions moveOk s).state).map Prod.fst)
              && moveOk x)))
            = (execute_actions moveOk s).state.files := by
          rw [List.filter_eq_self]
          intro a _
          exact hpred2 a
        rw [hself, if_neg (by omega)]
      exact ⟨appState_ext _ _ hfiles2 himg2 f3 f4 f5 hidx2, hmoves2⟩

/-- Witness for C6: a four-file commit in which the move of file 1 fails;
file 1 stays marked and in place, counts report only the successes, and a
second commit is a no-op. -/
theorem claim_C6_witness :
    (1 ∈ (execute_actions (fun f => f ≠ 1)
        { initState [0, 1, 2, 3] with
          image_data :=
            [(0, { initRecord with to_delete := true }),
             (1, { initRecord with to_delete := true }),
             (2, { initRecord with to_select := true }),
             (3, initRecord)] }).state.files
      ∧ dget (execute_actions (fun f => f ≠ 1)
          { initState [0, 1, 2, 3] with
            image_data :=
              [(0, { initRecord with to_delete := true }),
               (1, { initRecord with to_delete := true }),
               (2, { initRecord with to_select := true }),
               (3, initRecord)] }).state.image_data 1
        = dget
            [(0, { initRecord with to_delete := true }),
             (1, { initRecord with to_delete := true }),
             (2, { initRecord with to_select := true }),
             (3, initRecord)] 1)
    ∧ (execute_actions (fun f => f ≠ 1)
        (execute_actions (fun f => f ≠ 1)
          { initState [0, 1, 2, 3] with
            image_data :=
              [(0, { initRecord with to_delete := true }),
               (1, { initRecord with to_delete := true }),
               (2, { initRecord with to_select := true }),
               (3, initRecord)] }).state).moves = [] := by
  have h := claim_C6_commit_failure_isolation
    { initState [0, 1, 2, 3] with
      image_data :=
        [(0, { initRecord with to_delete := true }),
         (1, { initRecord with to_delete := true }),
         (2, { initRecord with to_select := true }),
         (3, initRecord)] } (by decide) (fun f => f ≠ 1)
  exact ⟨h.1 1 (by decide) (by decide), h.2.2.2.2.2.2⟩

/-! ### Claim C7 -/

theorem length_filter_partition (p : ℕ → Bool) (l : List ℕ) :
    (l.filter p).length + (l.filter (fun x => !p x)).length = l.length := by
  induction l with
  | nil => rfl
  | cons a rest ih =>
    by_cases h : p a <;> simp [List.filter_cons, h] <;> omega

theorem keys_filter_pairs (d : List (ℕ × ImageRecord)) (q : ℕ → Bool) :
    (d.filter (fun p => q p.1)).map Prod.fst = (d.map Prod.fst).filter q := by
  induction d with
  | nil => rfl
  | cons p rest ih =>
    obtain ⟨k, v⟩ := p
    by_cases h : q k <;> simp [List.filter_cons, h, ih]

/-- C7: when every move succeeds, commit moves every marked file to the
destination matching its mark (each move keeps the file's own name), drops
exactly the marked files from the list and the dict, reports the numbers of
delete-marked and select-marked files, and leaves the viewing index inside
the shrunken list (0 when the list becomes empty). -/
theorem claim_C7_commit_all_success (s : AppState)
    (hkeys : s.image_data.map Prod.fst = s.files) (hnd : s.files.Nodup)
    (hmutex : MutexOK s) (hidx : s.current_idx < s.files.length)
    (moveOk : ℕ → Bool) (hok : ∀ f ∈ s.files, moveOk f = true) :
    (∀ f ∈ s.files, (dget s.image_data f).to_delete = true →
        (f, MarkAction.delete) ∈ (execute_actions moveOk s).moves)
    ∧ (∀ f ∈ s.files, (dget s.image_data f).to_select = true →
        (f, MarkAction.select) ∈ (execute_actions moveOk s).moves)
    ∧ (execute_actions moveOk s).moves = to_process s
    ∧ (execute_actions moveOk s).state.files
        = s.files.filter (fun f =>
            !((dget s.image_data f).to_delete || (dget s.image_data f).to_select))
    ∧ (execute_actions moveOk s).state.image_data.map Prod.fst
        = (execute_actions moveOk s).state.files
    ∧ (execute_actions moveOk s).count_del
        = (s.files.filter (fun f => (dget s.image_data f).to_delete)).length
    ∧ (execute_actions moveOk s).count_sel
        = (s.files.filter (fun f => (dget s.image_data f).to_select)).length
    ∧ (execute_actions moveOk s).state.files.length + (to_process s).length
        = s.files.length
    ∧ ((execute_actions moveOk s).state.files ≠ [] →
        (execute_actions moveOk s).state.current_idx
          < (execute_actions moveOk s).state.files.length)
    ∧ ((execute_actions moveOk s).state.files = [] →
        (execute_actions moveOk s).state.current_idx = 0) := by
  obtain ⟨e1, e2, e3, e4, e5, e6, e7, e8, e9⟩ := execute_actions_spec moveOk s hnd
  have hfsts : (to_process s).map Prod.fst
      = s.files.filter (fun f =>
          (dget s.image_data f).to_delete || (dget s.image_data f).to_select) := by
    rw [to_process_eq, filterMap_mark_fsts]
  have hmovesAll : (execute_actions moveOk s).moves = to_process s := by
    rw [e8, List.filter_eq_self]
    intro p hp
    exact hok p.1 (mem_files_of_mem_to_process s p hp)
  have hdel_of_sel : ∀ f : ℕ, (dget s.image_data f).to_select = true →
      (dget s.image_data f).to_delete = false := by
    intro f hsel
    have h0 := mutexD_dget hmutex f
    by_cases hd : (dget s.image_data f).to_delete
    · exact absurd ⟨hd, hsel⟩ h0
    · simpa using hd
  have hfileseq : (execute_actions moveOk s).state.files
      = s.files.filter (fun f =>
          !((dget s.image_data f).to_delete || (dget s.image_data f).to_select)) := by
    rw [e1]
    apply List.filter_congr
    intro x hx
    rw [Bool.eq_iff_iff]
    simp [hfsts, List.mem_filter, hx, hok x hx]
  refine ⟨?_, ?_, hmovesAll, hfileseq, ?_, ?_, ?_, ?_, ?_, ?_⟩
  · intro f hf hd
    rw [hmovesAll]
    exact to_process_mem_del s f hf hd
  · intro f hf hsel
    rw [hmovesAll]
    exact to_process_mem_sel s f hf (hdel_of_sel f hsel) hsel
  · rw [e2, @keys_filter_pairs s.image_data
      (fun x => !(decide (x ∈ (to_process s).map Prod.fst) && moveOk x)), hkeys, e1]
  · rw [e6, to_process_eq, filterMap_mark_count_del]
    congr 1
    apply List.filter_congr
    intro x hx
    simp [hok x hx]
  · rw [e7, to_process_eq, filterMap_mark_count_sel]
    congr 1
    apply List.filter_congr
    intro x hx
    by_cases hsel : (dget s.image_data x).to_select
    · simp [hsel, hdel_of_sel x hsel, hok x hx]
    · simp [hsel]
  · have hlen : (to_process s).length = (s.files.filter (fun f =>
        (dget s.image_data f).to_delete || (dget s.image_data f).to_select)).length := by
      rw [← hfsts, List.length_map]
    rw [hfileseq, hlen]
    have := length_filter_partition (fun f =>
      (dget s.image_data f).to_delete || (dget s.image_data f).to_select) s.files
    omega
  · intro hne
    have hlenpos : 0 < (execute_actions moveOk s).state.files.length :=
      List.length_pos.mpr hne
    by_cases he : (to_process s).isEmpty
    · rw [e9, if_pos he]
      rw [e1] at hlenpos ⊢
      have htp : to_process s = [] := List.isEmpty_iff.mp he
      have hflt : s.files.filter (fun x =>
          !(decide (x ∈ (to_process s).map Prod.fst) && moveOk x)) = s.files := by
        rw [List.filter_eq_self]
        intro a _
        simp [htp]
      rw [hflt]
      exact hidx
    · rw [e9, if_neg he]
      rw [e1] at hlenpos
      by_cases hcc : (s.files.filter (fun x =>
          !(decide (x ∈ (to_process s).map Prod.fst) && moveOk x))).length
          ≤ s.current_idx
      · rw [if_pos hcc, e1]
        omega
      · rw [if_neg hcc, e1]
        omega
  · intro hnil
    have hlen0 : (s.files.filter (fun x =>
        !(decide (x ∈ (to_process s).map Prod.fst) && moveOk x))).length = 0 := by
      rw [← e1, hnil]
      rfl
    by_cases he : (to_process s).isEmpty
    · have htp : to_process s = [] := List.isEmpty_iff.mp he
      have hflt : s.files.filter (fun x =>
          !(decide (x ∈ (to_process s).map Prod.fst) && moveOk x)) = s.files := by
        rw [List.filter_eq_self]
        intro a _
        simp [htp]
      rw [hflt] at hlen0
      omega
    · rw [e9, if_neg he, if_pos (by omega)]
      omega

/-- Witness for C7: Scenario D, a four-file commit with two delete marks
and one select mark, every move succeeding. -/
theorem claim_C7_witness :
    (execute_actions (fun _ => true)
        { initState [0, 1, 2, 3] with
          image_data :=
            [(0, { initRecord with to_delete := true }),
             (1, { initRecord with to_delete := true }),
             (2, { initRecord with to_select := true }),
             (3, initRecord)],
          current_idx := 3 }).count_del = 2
    ∧ (execute_actions (fun _ => true)
        { initState [0, 1, 2, 3] with
          image_data :=
            [(0, { initRecord with to_delete := true }),
             (1, { initRecord with to_delete := true }),
             (2, { initRecord with to_select := true }),
             (3, initRecord)],
          current_idx := 3 }).count_sel = 1
    ∧ (execute_actions (fun _ => true)
        { initState [0, 1, 2, 3] with
          image_data :=
            [(0, { initRecord with to_delete := true }),
             (1, { initRecord with to_delete := true }),
             (2, { initRecord with to_select := true }),
             (3, initRecord)],
          current_idx := 3 }).state.files.length + 3 = 4
    ∧ (execute_actions (fun _ => true)
        { initState [0, 1, 2, 3] with
          image_data :=
            [(0, { initRecord with to_delete := true }),
             (1, { initRecord with to_delete := true }),
             (2, { initRecord with to_select := true }),
             (3, initRecord)],
          current_idx := 3 }).state.current_idx
      < (execute_actions (fun _ => true)
        { initState [0, 1, 2, 3] with
          image_data :=
            [(0, { initRecord with to_delete := true }),
             (1, { initRecord with to_delete := true }),
             (2, { initRecord with to_select := true }),
             (3, initRecord)],
          current_idx := 3 }).state.files.length := by
  have h := claim_C7_commit_all_success
    { initState [0, 1, 2, 3] with
      image_data :=
        [(0, { initRecord with to_delete := true }),
         (1, { initRecord with to_delete := true }),
         (2, { initRecord with to_select := true }),
         (3, initRecord)],
      current_idx := 3 } (by decide) (by decide) (by decide) (by decide)
    (fun _ => true) (fun f _ => rfl)
  refine ⟨?_, ?_, ?_, ?_⟩
  · rw [h.2.2.2.2.2.1]
    decide
  · rw [h.2.2.2.2.2.2.1]
    decide
  · have h2 := h.2.2.2.2.2.2.2.1
    have h3 : (to_process
        { initState [0, 1, 2, 3] with
          image_data :=
            [(0, { initRecord with to_delete := true }),
             (1, { initRecord with to_delete := true }),
             (2, { initRecord with to_select := true }),
             (3, initRecord)],
          current_idx := 3 }).length = 3 := by decide
    rw [h3] at h2
    rw [show (initState [0, 1, 2, 3]).files.length = 4 from rfl] at h2
    exact h2
  · apply h.2.2.2.2.2.2.2.2.1
    rw [h.2.2.2.1]
    decide

/-! ### Claim C8 -/

theorem runAux_fsts {α : Type} (blur : α → ℚ) (sim : α → α → ℚ) (resize : α → α) :
    ∀ (fs : List (Option α)) (i : ℕ) (last : Option α),
      (runAux blur sim resize fs i last).map Prod.fst
        = ((fs.enumFrom i).filter (fun p => p.2.isSome)).map Prod.fst := by
  intro fs
  induction fs with
  | nil => intro i last; rfl
  | cons o rest ih =>
    intro i last
    cases o with
    | none => simpa [runAux, List.enumFrom] using ih (i + 1) last
    | some img => simpa [runAux, List.enumFrom] using ih (i + 1) (some (resize img))

theorem runAux_blurs {α : Type} (blur : α → ℚ) (sim : α → α → ℚ) (resize : α → α) :
    ∀ (fs : List (Option α)) (i : ℕ) (last : Option α),
      (runAux blur sim resize fs i last).map (fun p => p.2.1)
        = (fs.filterMap id).map blur := by
  intro fs
  induction fs with
  | nil => intro i last; rfl
  | cons o rest ih =>
    intro i last
    cases o with
    | none => simpa [runAux, List.filterMap_cons] using ih (i + 1) last
    | some img =>
      simpa [runAux, List.filterMap_cons] using ih (i + 1) (some (resize img))

theorem runAux_sims {α : Type} (blur : α → ℚ) (sim : α → α → ℚ) (resize : α → α) :
    ∀ (fs : List (Option α)) (i : ℕ) (last : Option α),
      (last.isSome → 0 < i) →
      (runAux blur sim resize fs i last).map (fun p => p.2.2)
        = simChain sim resize (fs.filterMap id) last := by
  intro fs
  induction fs with
  | nil => intro i last _; rfl
  | cons o rest ih =>
    intro i last hinv
    cases o with
    | none =>
      simpa [runAux, List.filterMap_cons] using ih (i + 1) last (fun _ => by omega)
    | some img =>
      cases last with
      | none =>
        have h0 : (if 0 < i then (0 : ℚ) else 0) = 0 := by
          by_cases h : 0 < i <;> simp [h]
        simp only [runAux, List.filterMap_cons, Option.isSome, List.map_cons,
          simChain, id]
        refine congrArg₂ _ ?_ (ih (i + 1) (some (resize img)) (fun _ => by omega))
        by_cases h : 0 < i <;> simp [h]
      | some p =>
        have hi : 0 < i := hinv rfl
        simp only [runAux, List.filterMap_cons, List.map_cons, simChain, id]
        exact congrArg₂ _ (by simp [hi]) (ih (i + 1) (some (resize img))
          (fun _ => by omega))

/-- C8: the analysis pipeline walks the file list once in order; a file
whose load fails produces no result event, and each successfully loaded
file is scored against the most recent successfully loaded image in the
chain (the first successfully loaded file gets similarity 0).  The emitted
indices are exactly the indices of loadable files in order, the blur
scores are the metric of the loaded images in order, and the similarity
scores follow the chain rule of `simChain`. -/
theorem claim_C8_pipeline_skip_and_chain {α : Type} (blur : α → ℚ)
    (sim : α → α → ℚ) (resize : α → α) (files : List (Option α)) :
    (analyzerRun blur sim resize files).map Prod.fst
        = ((files.enum.filter (fun p => p.2.isSome)).map Prod.fst)
    ∧ (analyzerRun blur sim resize files).map (fun p => p.2.1)
        = (files.filterMap id).map blur
    ∧ (analyzerRun blur sim resize files).map (fun p => p.2.2)
        = simChain sim resize (files.filterMap id) none := by
  refine ⟨?_, runAux_blurs blur sim resize files 0 none, ?_⟩
  · rw [analyzerRun, runAux_fsts, List.enum]
  · exact runAux_sims blur sim resize files 0 none (fun h => by simp at h)

/-! ### Claim C9 -/

theorem handle_eq (s : AppState) (fp : ℕ) (bs sm : ℚ) :
    handle_analysis_result s fp bs sm
      = apply_judgment_logic
          { s with
            image_data :=
              dset s.image_data fp
                { dget s.image_data fp with score := bs, sim_prev := sm } }
          fp true :=
  rfl

theorem apply_true_state (s : AppState) (f : ℕ) :
    ∃ g0 : ℤ,
      apply_judgment_logic s f true
        = (if ((((dset (dset s.image_data f
                (blurRecord s.blur_slider (dget s.image_data f))) f
                { blurRecord s.blur_slider (dget s.image_data f) with
                  group_id := g0 })).map (fun p => p.2.group_id)).filter
              (fun g2 => g2 ≠ -1)).isEmpty
           then { s with
                  image_data := dset (dset s.image_data f
                    (blurRecord s.blur_slider (dget s.image_data f))) f
                    { blurRecord s.blur_slider (dget s.image_data f) with
                      group_id := g0 } }
           else { s with
                  image_data := dset (dset s.image_data f
                    (blurRecord s.blur_slider (dget s.image_data f))) f
                    { blurRecord s.blur_slider (dget s.image_data f) with
                      group_id := g0 },
                  group_counts := tally ((((dset (dset s.image_data f
                    (blurRecord s.blur_slider (dget s.image_data f))) f
                    { blurRecord s.blur_slider (dget s.image_data f) with
                      group_id := g0 })).map (fun p => p.2.group_id)).filter
                    (fun g2 => g2 ≠ -1)) }) := by
  unfold apply_judgment_logic
  split
  case isFalse h => exact absurd rfl h
  case isTrue _ =>
    dsimp only
    by_cases c1 : 0 < s.files.indexOf f
    · by_cases c2 : simThreshold s ≤ (dget s.image_data f).sim_prev
      · rw [if_pos c1, if_pos c2]
        exact ⟨_, rfl⟩
      · rw [if_pos c1, if_neg c2]
        exact ⟨_, rfl⟩
    · rw [if_neg c1]
      exact ⟨_, rfl⟩

theorem apply_true_counts_of_present (s : AppState) (f : ℕ) (g : ℤ)
    (hg : g ≠ -1)
    (hpres : ∃ p ∈ (apply_judgment_logic s f true).image_data, p.2.group_id = g) :
    cget (apply_judgment_logic s f true).group_counts g
      = ((apply_judgment_logic s f true).image_data.map
          (fun p => p.2.group_id)).count g := by
  obtain ⟨g0, hstate⟩ := apply_true_state s f
  rw [hstate] at hpres ⊢
  by_cases hc : ((((dset (dset s.image_data f
        (blurRecord s.blur_slider (dget s.image_data f))) f
        { blurRecord s.blur_slider (dget s.image_data f) with
          group_id := g0 })).map (fun p => p.2.group_id)).filter
      (fun g2 => g2 ≠ -1)).isEmpty
  · rw [if_pos hc] at hpres
    exfalso
    obtain ⟨p, hp, hpg⟩ := hpres
    have h1 : p.2.group_id ∈ (((dset (dset s.image_data f
        (blurRecord s.blur_slider (dget s.image_data f))) f
        { blurRecord s.blur_slider (dget s.image_data f) with
          group_id := g0 })).map (fun p => p.2.group_id)) :=
      List.mem_map_of_mem _ hp
    rw [hpg] at h1
    have h2 : g ∈ ((((dset (dset s.image_data f
        (blurRecord s.blur_slider (dget s.image_data f))) f
        { blurRecord s.blur_slider (dget s.image_data f) with
          group_id := g0 })).map (fun p => p.2.group_id)).filter
        (fun g2 => g2 ≠ -1)) :=
      List.mem_filter.mpr ⟨h1, by simpa using hg⟩
    rw [List.isEmpty_iff.mp hc] at h2
    simp at h2
  · rw [if_neg hc] at hpres ⊢
    show cget (tally _) g = _
    rw [cget_tally]
    exact List.count_filter (by simpa using hg)

/-- C9: after both kinds of classification pass the `group_counts` dict
answers every group id with the exact number of records carrying it: after
a full re-classification this holds for every id (and the burst test is
exactly "more than one record in my group"); after an incremental ingest it
holds for every non-sentinel id carried by some record (records still at
the `-1` sentinel are deliberately not tallied). -/
theorem claim_C9_group_counts (s : AppState) (fp f : ℕ) (bs sm : ℚ) (g : ℤ)
    (hg : g ≠ -1)
    (hpres : ∃ p ∈ (handle_analysis_result s fp bs sm).image_data,
        p.2.group_id = g) :
    (∀ g2 : ℤ, cget (refresh_judgments_instantly s).group_counts g2
        = ((refresh_judgments_instantly s).image_data.map
            (fun p => p.2.group_id)).count g2)
    ∧ (is_burst (refresh_judgments_instantly s) f
        = decide (1 < ((refresh_judgments_instantly s).image_data.map
            (fun p => p.2.group_id)).count
              (dget (refresh_judgments_instantly s).image_data f).group_id))
    ∧ (cget (handle_analysis_result s fp bs sm).group_counts g
        = ((handle_analysis_result s fp bs sm).image_data.map
            (fun p => p.2.group_id)).count g) := by
  have hrefresh : ∀ g2 : ℤ, cget (refresh_judgments_instantly s).group_counts g2
      = ((refresh_judgments_instantly s).image_data.map
          (fun p => p.2.group_id)).count g2 := by
    intro g2
    rw [refresh_eq]
    exact cget_tally ((refreshD s).map (fun p => p.2.group_id)) g2
  refine ⟨hrefresh, ?_, ?_⟩
  · show decide (1 < cget (refresh_judgments_instantly s).group_counts
        (dget (refresh_judgments_instantly s).image_data f).group_id) = _
    rw [hrefresh]
  · rw [handle_eq] at hpres ⊢
    exact apply_true_counts_of_present _ fp g hg hpres

/-- Witness for C9: Scenario A, three analyzed files grouped as
`[0, 0, 1]`, so group 0 counts 2 records (a burst) and group 1 counts 1. -/
theorem claim_C9_witness :
    cget (refresh_judgments_instantly
        (handle_analysis_result (handle_analysis_result
          (handle_analysis_result (initState [0, 1, 2]) 0 300 0)
          1 300 (mkRat 95 100)) 2 300 (mkRat 40 100))).group_counts 0 = 2
    ∧ is_burst (refresh_judgments_instantly
        (handle_analysis_result (handle_analysis_result
          (handle_analysis_result (initState [0, 1, 2]) 0 300 0)
          1 300 (mkRat 95 100)) 2 300 (mkRat 40 100))) 0 = true
    ∧ cget (handle_analysis_result (initState [0, 1]) 0 200 0).group_counts 0
        = 1 := by
  have h := claim_C9_group_counts
    (handle_analysis_result (handle_analysis_result
      (handle_analysis_result (initState [0, 1, 2]) 0 300 0)
      1 300 (mkRat 95 100)) 2 300 (mkRat 40 100)) 0 0 0 0 0 (by decide)
    (by decide)
  refine ⟨?_, ?_, ?_⟩
  · rw [h.1 0]
    decide
  · rw [h.2.1]
    decide
  · have h2 := claim_C9_group_counts (initState [0, 1]) 0 0 200 0 0 (by decide)
      (by decide)
    rw [h2.2.2]
    decide

/-! ### Claim C10 -/

theorem list_indexOf_getD_le : ∀ (l : List ℕ) (i : ℕ) (d : ℕ), i < l.length →
    l.indexOf (l.getD i d) ≤ i := by
  intro l
  induction l with
  | nil => intro i d h; simp at h
  | cons a rest ih =>
    intro i d h
    cases i with
    | zero => simp
    | succ i2 =>
      have h2 : i2 < rest.length := by simpa using h
      rw [List.getD_cons_succ]
      by_cases hax : a = rest.getD i2 d
      · rw [← hax, List.indexOf_cons_self]
        omega
      · rw [List.indexOf_cons_ne rest hax]
        have := ih i2 d h2
        omega

/-- In the `update_group_id` branch, when the file is not first and its
similarity meets the threshold, the assigned group id is read from the
nominal predecessor's current record. -/
theorem apply_true_group_id_join (s : AppState) (f : ℕ)
    (hpos : 0 < s.files.indexOf f)
    (hsim : simThreshold s ≤ (dget s.image_data f).sim_prev) :
    (dget (apply_judgment_logic s f true).image_data f).group_id
      = (dget (dset s.image_data f (blurRecord s.blur_slider (dget s.image_data f)))
          (s.files.getD (s.files.indexOf f - 1) 0)).group_id := by
  unfold apply_judgment_logic
  split
  case isFalse h => exact absurd rfl h
  case isTrue _ =>
    dsimp only
    rw [if_pos hpos, if_pos hsim]
    split <;> (show (dget (dset _ f _) f).group_id = _) <;> rw [dget_dset_self] <;>
      rfl

/-- C10 (implicit behavior): during incremental ingestion the group id is
derived from the stored group id of the nominal predecessor; if the
predecessor was never classified (still at the `-1` sentinel, e.g. its
image failed to load) and the ingested similarity meets the threshold, the
freshly analyzed record is assigned the sentinel group id `-1`. -/
theorem claim_C10_sentinel_group_id (s : AppState) (fp : ℕ) (i : ℕ)
    (hidx : s.files.indexOf fp = i + 1)
    (hprev : (dget s.image_data (s.files.getD i 0)).group_id = -1)
    (bs sm : ℚ) (hsim : simThreshold s ≤ sm) :
    (dget (handle_analysis_result s fp bs sm).image_data fp).group_id = -1 := by
  have hilen : i < s.files.length := by
    have := List.indexOf_le_length (a := fp) (l := s.files)
    omega
  have hne : fp ≠ s.files.getD i 0 := by
    intro he
    have := list_indexOf_getD_le s.files i 0 hilen
    rw [← he, hidx] at this
    omega
  rw [handle_eq]
  have hpos2 : 0 < ({ s with
      image_data := dset s.image_data fp
        { dget s.image_data fp with score := bs, sim_prev := sm } } :
      AppState).files.indexOf fp := by
    show 0 < s.files.indexOf fp
    omega
  have hsim2 : simThreshold { s with
      image_data := dset s.image_data fp
        { dget s.image_data fp with score := bs, sim_prev := sm } }
      ≤ (dget ({ s with
          image_data := dset s.image_data fp
            { dget s.image_data fp with score := bs, sim_prev := sm } } :
          AppState).image_data fp).sim_prev := by
    show simThreshold s ≤ (dget (dset s.image_data fp
      { dget s.image_data fp with score := bs, sim_prev := sm }) fp).sim_prev
    rw [dget_dset_self]
    exact hsim
  rw [apply_true_group_id_join _ fp hpos2 hsim2]
  show (dget (dset (dset s.image_data fp
      { dget s.image_data fp with score := bs, sim_prev := sm }) fp _)
    (s.files.getD (s.files.indexOf fp - 1) 0)).group_id = -1
  rw [hidx]
  have hstep : i + 1 - 1 = i := by omega
  rw [hstep, dget_dset_ne _ _ hne, dget_dset_ne _ _ hne]
  exact hprev

/-- Witness for C10: two files, file 0 never analyzed (its record still at
the sentinel), ingesting file 1 with similarity 0.9 against threshold 0.85
leaves file 1 at group id `-1`. -/
theorem claim_C10_witness :
    (dget (handle_analysis_result (initState [0, 1]) 1 200
        (mkRat 9 10)).image_data 1).group_id = -1 :=
  claim_C10_sentinel_group_id (initState [0, 1]) 1 0 (by decide) (by decide)
    200 (mkRat 9 10) (by decide)

end Senbetu
